import Mathlib

/-!
Verification of the loopy flow-execution engine.

The definitions below are a shallow embedding of the execution engine in
`src/lib/flow.ts` and `src/hooks/useRunFlow.ts` (plus the run-scoped store
operations of `src/store/canvasStore.ts`).  Node payloads are the loosely
typed key/value bags of the source, restricted to the execution-relevant
fields; JavaScript string truthiness (`if (data.prompt)`) is modelled by
`truthy`.  External calls (text generation, branch selection) are oracles:
`gen : String → Option String` and `choose : String → Option (String × String)`,
`none` standing for a non-success status or transport error (the `throw`
paths of the source).  Recursive graph walks of the source
(`buildMessageHistory`, `markSubtreeSkipped`, `topologicalSort`'s `visit`)
are embedded with an explicit fuel parameter; the source recurses without
fuel and diverges (stack exhaustion) on cyclic inputs, so the fueled
versions agree with the source exactly where the source terminates, and the
fuel bounds used (`nodes.length` and `nodes.length + 1`) are proved / argued
sufficient there.

The promise scheduler of `runFlow` creates one asynchronous unit of work per
node; each unit awaits all of its direct predecessors before reading or
writing any run-scoped state, runs on a single-threaded cooperative loop,
and performs its reads of `skippedNodes` / `selectedChildMap` synchronously
after the dependency await.  Consequently every interleaving is equivalent
to processing the node bodies atomically in some topological order of the
DAG, which is how `runFlow` is embedded here: `runBody` is the body of
`createNodeExecution` as one state transformation, and `runFlow` folds it
over an execution order (constrained by `isTopoOrder`).
-/

namespace Loopy

/-- A chat message as in `src/lib/flow.ts` (`Message`). -/
structure Message where
  role : String
  content : String
  deriving DecidableEq, Repr

/-- The execution-relevant node payload fields (`NodeData` of
`src/hooks/useRunFlow.ts` together with the `response`/`loading` fields read
by `src/lib/flow.ts`).  A missing key of the JavaScript bag is `none`. -/
structure NodeData where
  label : Option String := none
  prompt : Option String := none
  response : Option String := none
  loading : Bool := false
  executionMode : Option String := none
  conditionPrompt : Option String := none
  selectionState : Option String := none
  deriving DecidableEq, Repr

/-- A React Flow node: opaque id plus data bag. -/
structure Node where
  id : String
  data : NodeData
  deriving DecidableEq, Repr

/-- A React Flow edge: directed arc from `source` to `target`. -/
structure Edge where
  id : String
  source : String
  target : String
  deriving DecidableEq, Repr

/-- JavaScript truthiness of an optional string field: present and non-empty. -/
def truthy : Option String → Bool
  | none => false
  | some s => !s.isEmpty

/-- The string content of an optional field (`""` when absent). -/
def orEmpty : Option String → String
  | none => ""
  | some s => s

/-- Keep the first occurrence of each string not already in `seen`,
dropping later duplicates. -/
def dedupFirstAux (seen : List String) : List String → List String
  | [] => []
  | x :: xs =>
    if seen.contains x then dedupFirstAux seen xs
    else x :: dedupFirstAux (x :: seen) xs

/-- Keep the first occurrence of each string, dropping later duplicates. -/
def dedupFirst (l : List String) : List String := dedupFirstAux [] l

/-- Modelled from the spec: the Graph Accessor's `incomers` (§4.1), the
`getIncomers` helper of the external `@xyflow/react` package, which is not
part of this repository's sources.  Per §4.1 it returns "all nodes `n` such
that an edge `n → node` exists, in edge-list order"; each distinct source id
contributes once, and ids without a matching node are dropped. -/
def getIncomers (node : Node) (nodes : List Node) (edges : List Edge) : List Node :=
  (dedupFirst ((edges.filter (fun e => e.target == node.id)).map (fun e => e.source))).filterMap
    (fun sid => nodes.find? (fun n => n.id == sid))

/-- Modelled from the spec: the Graph Accessor's `outgoers` (§4.1), symmetric
to `getIncomers` over edges `node → n`. -/
def getOutgoers (node : Node) (nodes : List Node) (edges : List Edge) : List Node :=
  (dedupFirst ((edges.filter (fun e => e.source == node.id)).map (fun e => e.target))).filterMap
    (fun tid => nodes.find? (fun n => n.id == tid))

/-- `buildMessageHistory` of `src/lib/flow.ts`: recursively builds the
message history for a node by traversing its parent chain, following only
the first incomer.  The parent's turns are read from the parent's *node
data* (`parentData.prompt`, `parentData.response`) — the function takes no
completed-text map.  `fuel` bounds the recursion depth; the source recurses
unboundedly and on an acyclic graph the chain length is below the node
count, so `fuel = nodes.length` reproduces the source there. -/
def buildMessageHistory (fuel : Nat) (nodeId : String) (nodes : List Node)
    (edges : List Edge) : List Message :=
  match fuel with
  | 0 => []
  | Nat.succ fuel =>
    match nodes.find? (fun n => n.id == nodeId) with
    | none => []
    | some currentNode =>
      match getIncomers currentNode nodes edges with
      | [] => []
      | parent :: _ =>
        let parentHistory := buildMessageHistory fuel parent.id nodes edges
        let h1 := if truthy parent.data.prompt
          then parentHistory ++ [{ role := "user", content := orEmpty parent.data.prompt }]
          else parentHistory
        if truthy parent.data.response
          then h1 ++ [{ role := "assistant", content := orEmpty parent.data.response }]
          else h1

/-- The `messages` array that `executeNode` of `src/lib/flow.ts` puts in its
request body: the node's built history with the node's own prompt appended
when non-empty.  The choose-mode branch of `createNodeExecution` builds the
same array for the branch-selection request. -/
def nodeMessages (node : Node) (nodes : List Node) (edges : List Edge) : List Message :=
  let messages := buildMessageHistory nodes.length node.id nodes edges
  if truthy node.data.prompt
  then messages ++ [{ role := "user", content := orEmpty node.data.prompt }]
  else messages

/-- The run-scoped state of one `runFlow` invocation
(`src/hooks/useRunFlow.ts`), plus the progress published through the store
callbacks.  Maps are association lists written by consing, so a lookup sees
the most recent write; `skippedNodes` is a membership list.  `genCalls` and
`chooseCalls` log the external requests actually issued (node id and the
`messages` array of the request body), newest first. -/
structure RunState where
  resolved : List (String × Option String)
  responseMap : List (String × String)
  selectedChildMap : List (String × String)
  skippedNodes : List String
  selectionStates : List (String × String)
  nodeResponses : List (String × (String × Bool))
  edgeStates : List (String × String)
  genCalls : List (String × List Message)
  chooseCalls : List (String × List Message)
  deriving DecidableEq, Repr

/-- The empty run state created at the start of `runFlow`. -/
def emptyRunState : RunState := ⟨[], [], [], [], [], [], [], [], []⟩

/-- `findIncomingEdges` of `src/hooks/useRunFlow.ts`: edges targeting a node. -/
def findIncomingEdges (edges : List Edge) (nodeId : String) : List Edge :=
  edges.filter (fun e => e.target == nodeId)

/-- `setEdgeExecutionState` as seen by the run: record the edge's new state. -/
def setEdgeState (edgeId state : String) (s : RunState) : RunState :=
  { s with edgeStates := (edgeId, state) :: s.edgeStates }

/-- `setNodeResponse(nodeId, response, loading)` as seen by the run. -/
def publishNodeResponse (nodeId response : String) (loading : Bool) (s : RunState) : RunState :=
  { s with nodeResponses := (nodeId, (response, loading)) :: s.nodeResponses }

/-- `markSubtreeSkipped` of `src/hooks/useRunFlow.ts`: adds the node to
`skippedNodes` and sets its selection state to `"skipped"`, then (when the
node exists) marks its incoming edges skipped and recurses into every
outgoer.  The source recursion is unbounded (and diverges on a cyclic
graph); `fuel` bounds the depth, and `fuel = nodes.length` is proved below
to cover every reachable node. -/
def markSubtreeSkipped (nodes : List Node) (edges : List Edge) :
    Nat → String → RunState → RunState
  | 0, _, s => s
  | Nat.succ fuel, nodeId, s =>
    let s1 : RunState := { s with
      skippedNodes := nodeId :: s.skippedNodes,
      selectionStates := (nodeId, "skipped") :: s.selectionStates }
    match nodes.find? (fun n => n.id == nodeId) with
    | none => s1
    | some node =>
      let s2 := (findIncomingEdges edges nodeId).foldl
        (fun t e => setEdgeState e.id "skipped" t) s1
      (getOutgoers node nodes edges).foldl
        (fun t c => markSubtreeSkipped nodes edges fuel c.id t) s2

/-- `markNodeSelected` of `src/hooks/useRunFlow.ts`. -/
def markNodeSelected (edges : List Edge) (nodeId : String) (s : RunState) : RunState :=
  let s1 : RunState := { s with selectionStates := (nodeId, "selected") :: s.selectionStates }
  (findIncomingEdges edges nodeId).foldl (fun t e => setEdgeState e.id "selected" t) s1

/-- `markEdgesComplete` of `src/hooks/useRunFlow.ts`. -/
def markEdgesComplete (edges : List Edge) (nodeId : String) (s : RunState) : RunState :=
  (findIncomingEdges edges nodeId).foldl
    (fun t e => if t.skippedNodes.contains nodeId then t else setEdgeState e.id "complete" t) s

/-- The parent check of `createNodeExecution` (lines 206–226): some incomer
has `executionMode = "choose"` and a recorded selected child that is truthy
and differs from this node's id. -/
def chooseTriggered (s : RunState) (deps : List Node) (nodeId : String) : Bool :=
  deps.any (fun p =>
    p.data.executionMode == some "choose" &&
    (match s.selectedChildMap.lookup p.id with
     | some c => !c.isEmpty && c != nodeId
     | none => false))

/-- Resolve a node's unit of work with its final value (`string | null`). -/
def resolveWith (nodeId : String) (v : Option String) (s : RunState) : RunState :=
  { s with resolved := (nodeId, v) :: s.resolved }

/-- `childData.label || "Untitled"` of the choose branch. -/
def childLabel (c : Node) : String :=
  if truthy c.data.label then orEmpty c.data.label else "Untitled"

/-- The branch-selection path of `createNodeExecution` (its choose-mode
branch with more than one child), starting from the state in which the
loading publish has already happened. -/
def chooseBody (choose : String → Option (String × String))
    (nodes : List Node) (edges : List Edge) (node : Node) (s0 : RunState) : RunState :=
  let children := getOutgoers node nodes edges
  let messages := nodeMessages node nodes edges
  let s1 : RunState := { s0 with chooseCalls := (node.id, messages) :: s0.chooseCalls }
  match choose node.id with
  | none =>
    resolveWith node.id none (publishNodeResponse node.id "" false s1)
  | some (selectedChildId, reasoning) =>
    let s2 : RunState :=
      { s1 with selectedChildMap := (node.id, selectedChildId) :: s1.selectedChildMap }
    let selectedLabel := match children.find? (fun c => c.id == selectedChildId) with
      | some c => childLabel c
      | none => "Unknown"
    let response := "Selected: " ++ selectedLabel ++ "\n\nReason: " ++ reasoning
    let s3 : RunState := { s2 with responseMap := (node.id, response) :: s2.responseMap }
    let s4 := publishNodeResponse node.id response false s3
    let s5 := markEdgesComplete edges node.id s4
    let s6 := markNodeSelected edges selectedChildId s5
    let s7 := children.foldl (fun t c =>
      if c.id != selectedChildId then markSubtreeSkipped nodes edges (nodes.length + 1) c.id t
      else t) s6
    resolveWith node.id (some response) s7

/-- The normal execution path of `createNodeExecution` (its call to
`executeNode`), starting from the state in which the loading publish has
already happened. -/
def normalBody (gen : String → Option String)
    (nodes : List Node) (edges : List Edge) (node : Node) (s0 : RunState) : RunState :=
  let messages := nodeMessages node nodes edges
  let s1 : RunState := { s0 with genCalls := (node.id, messages) :: s0.genCalls }
  match gen node.id with
  | none =>
    resolveWith node.id none (publishNodeResponse node.id "" false s1)
  | some response =>
    let s2 : RunState := { s1 with responseMap := (node.id, response) :: s1.responseMap }
    let s3 := publishNodeResponse node.id response false s2
    let s4 := markEdgesComplete edges node.id s3
    resolveWith node.id (some response) s4

/-- The body of `createNodeExecution` of `src/hooks/useRunFlow.ts` as one
state transformation, executed once all the node's dependencies have
resolved (the `await Promise.all` of lines 179–197): the skipped check, the
choose-parent check, the loading publish, then either the branch-selection
path (choose mode, truthy condition prompt, more than one outgoer) or the
normal `executeNode` path.  `gen`/`choose` are the external calls; `none`
is the thrown failure caught at lines 347–351, which publishes
`("", false)` and resolves with `null`. -/
def runBody (gen : String → Option String) (choose : String → Option (String × String))
    (nodes : List Node) (edges : List Edge) (node : Node) (s : RunState) : RunState :=
  let deps := getIncomers node nodes edges
  if s.skippedNodes.contains node.id then
    resolveWith node.id none s
  else if chooseTriggered s deps node.id then
    resolveWith node.id none (markSubtreeSkipped nodes edges (nodes.length + 1) node.id s)
  else
    let s0 := publishNodeResponse node.id "" true s
    let children := getOutgoers node nodes edges
    if node.data.executionMode == some "choose" && truthy node.data.conditionPrompt
        && decide (children.length > 1) then
      chooseBody choose nodes edges node s0
    else
      normalBody gen nodes edges node s0

/-- Process a list of node bodies in order. -/
def runNodes (gen : String → Option String) (choose : String → Option (String × String))
    (nodes : List Node) (edges : List Edge) (order : List Node) (s : RunState) : RunState :=
  order.foldl (fun t n => runBody gen choose nodes edges n t) s

/-- `runFlow` of `src/hooks/useRunFlow.ts` over one execution order: starts
from the reset (empty) run state and processes every node body.  `order` is
the sequence in which the concurrently scheduled unit-of-work bodies pass
their dependency await; on a DAG every interleaving of the promise
scheduler is equivalent to some such order satisfying `isTopoOrder`. -/
def runFlow (gen : String → Option String) (choose : String → Option (String × String))
    (nodes : List Node) (edges : List Edge) (order : List Node) : RunState :=
  runNodes gen choose nodes edges order emptyRunState

/-- An execution order of the scheduler: a permutation of the node set in
which no node precedes one of its own incomers, and no node is its own
incomer — i.e. every node's unit of work runs after all of its direct
predecessors have resolved. -/
def isTopoOrder (nodes : List Node) (edges : List Edge) (order : List Node) : Prop :=
  order.Perm nodes ∧
  order.Pairwise (fun a b => b ∉ getIncomers a nodes edges) ∧
  ∀ a ∈ order, a ∉ getIncomers a nodes edges

/-- An edge as held by the canvas store, with the presentation fields that
`setEdgeExecutionState` / `clearEdgeExecutionStates` of
`src/store/canvasStore.ts` mutate (`style` abstracted to its stroke
colour). -/
structure StoreEdge where
  id : String
  source : String
  target : String
  style : Option String := none
  animated : Bool := false
  deriving DecidableEq, Repr

/-- The slice of the canvas store state touched by `resetFlow`:
the persisted nodes (`rawNodes`, whose data bags hold any persisted
`response`/`loading`/`selectionState`), the fine-grained `nodeResponses`
map, the local `edgeExecutionStates` map and the styled `edges`.
`zeroConnected` is whether `zeroMutate` is available. -/
structure StoreState where
  rawNodes : List Node
  nodeResponses : List (String × (String × Bool))
  edgeExecutionStates : List (String × String)
  edges : List StoreEdge
  zeroConnected : Bool
  deriving DecidableEq, Repr

/-- Strip the run-scoped keys (`response`, `loading`, `selectionState`)
from a node's persisted data, as `clearNodeResponses` does. -/
def stripRunFields (d : NodeData) : NodeData :=
  { d with response := none, loading := false, selectionState := none }

/-- The per-node persisted update of `clearNodeResponses`: strip the
run-scoped keys when any of them is truthy, else leave the node alone. -/
def stripIfRun (n : Node) : Node :=
  if truthy n.data.response || n.data.loading || truthy n.data.selectionState
  then { n with data := stripRunFields n.data } else n

/-- `clearNodeResponses` of `src/store/canvasStore.ts` (lines 1027–1063):
resets the fine-grained response of every raw node to `("", false)`, and,
when Zero is available, strips the run-scoped keys from every persisted
node whose data has a truthy `response`, `loading` or `selectionState`. -/
def clearNodeResponses (st : StoreState) : StoreState :=
  let st1 : StoreState :=
    { st with nodeResponses := st.rawNodes.map (fun n => (n.id, ("", false))) }
  if st1.zeroConnected then
    { st1 with rawNodes := st1.rawNodes.map stripIfRun }
  else st1

/-- The per-edge update of `clearEdgeExecutionStates`. -/
def clearEdgeStyle (e : StoreEdge) : StoreEdge :=
  { e with style := none, animated := false }

/-- `clearEdgeExecutionStates` of `src/store/canvasStore.ts` (lines
977–987): empties the execution-state map and clears every edge's style and
animation. -/
def clearEdgeExecutionStates (st : StoreState) : StoreState :=
  { st with
    edgeExecutionStates := [],
    edges := st.edges.map clearEdgeStyle }

/-- `resetFlow` of `src/hooks/useRunFlow.ts` (lines 79–82):
`clearNodeResponses()` then `clearEdgeExecutionStates()`. -/
def resetFlow (st : StoreState) : StoreState :=
  clearEdgeExecutionStates (clearNodeResponses st)

/-- The state of the depth-first `visit` of `topologicalSort`
(`src/lib/flow.ts`): the `visited` and `visiting` sets and the accumulated
`sorted` output. -/
structure SortState where
  visited : List String
  visiting : List String
  sorted : List Node
  deriving DecidableEq, Repr

/-- The recursive `visit` of `topologicalSort` in `src/lib/flow.ts`:
skip if visited, throw `"Cycle detected in graph"` if currently visiting,
otherwise push onto `visiting`, visit all incomers, then move the node to
`visited` and append it to `sorted`.  The source recursion is unbounded;
`fuel` bounds the nesting depth and `"fuel exhausted"` (an error the source
never produces) is proved unreachable for `fuel = nodes.length + 1`. -/
def visit (nodes : List Node) (edges : List Edge) :
    Nat → Node → SortState → Except String SortState
  | 0, _, _ => Except.error "fuel exhausted"
  | Nat.succ fuel, node, s =>
    if s.visited.contains node.id then Except.ok s
    else if s.visiting.contains node.id then Except.error "Cycle detected in graph"
    else do
      let s1 : SortState := { s with visiting := node.id :: s.visiting }
      let s2 ← (getIncomers node nodes edges).foldlM
        (fun t inc => visit nodes edges fuel inc t) s1
      Except.ok { s2 with
        visiting := s2.visiting.erase node.id,
        visited := node.id :: s2.visited,
        sorted := s2.sorted ++ [node] }

/-- `topologicalSort` of `src/lib/flow.ts` (lines 61–91): depth-first visit
of every node, throwing on a cycle. -/
def topologicalSort (nodes : List Node) (edges : List Edge) : Except String (List Node) :=
  (nodes.foldlM (fun s n => visit nodes edges (nodes.length + 1) n s)
    (⟨[], [], []⟩ : SortState)).map (fun s => s.sorted)

/-- One directed step among the given nodes: an edge from `a` to `b`, both
endpoints being ids of listed nodes. -/
def edgeStep (nodes : List Node) (edges : List Edge) (a b : String) : Prop :=
  (∃ e ∈ edges, e.source = a ∧ e.target = b) ∧
  (∃ n ∈ nodes, n.id = a) ∧ (∃ n ∈ nodes, n.id = b)

/-- A directed cycle among the given nodes. -/
def hasCycle (nodes : List Node) (edges : List Edge) : Prop :=
  ∃ a, Relation.TransGen (edgeStep nodes edges) a a

/-- `b` is reachable from `a` along directed edges among the given nodes
(including `a` itself). -/
def reaches (nodes : List Node) (edges : List Edge) (a b : String) : Prop :=
  Relation.ReflTransGen (edgeStep nodes edges) a b

/-- The first incomer of a node (the only one `buildMessageHistory`
follows), or `none` for an unknown node or a node with no incomers. -/
def firstIncomer (nodes : List Node) (edges : List Edge) (nodeId : String) : Option Node :=
  match nodes.find? (fun n => n.id == nodeId) with
  | none => none
  | some n => (getIncomers n nodes edges).head?

/-- The two turns one ancestor contributes to a history: its prompt as a
user turn if non-empty, then its data.response as an assistant turn if
non-empty. -/
def ancestorTurns (a : Node) : List Message :=
  (if truthy a.data.prompt
    then [{ role := "user", content := orEmpty a.data.prompt }] else []) ++
  (if truthy a.data.response
    then [{ role := "assistant", content := orEmpty a.data.response }] else [])

/-- The ancestor chain of a node obtained by iterating `firstIncomer`, in
nearest-ancestor-first order. -/
def firstIncomerChain (nodes : List Node) (edges : List Edge) :
    Nat → String → List Node
  | 0, _ => []
  | Nat.succ fuel, nodeId =>
    match firstIncomer nodes edges nodeId with
    | none => []
    | some p => p :: firstIncomerChain nodes edges fuel p.id

/-- The ids whose run state a `markSubtreeSkipped` call touches: the root
id and, when the root id names a node, recursively the ids touched from
each of its outgoers (with one less fuel). -/
def markedIds (nodes : List Node) (edges : List Edge) : Nat → String → List String
  | 0, _ => []
  | Nat.succ fuel, nodeId =>
    nodeId ::
      (match nodes.find? (fun n => n.id == nodeId) with
       | none => []
       | some node =>
         (getOutgoers node nodes edges).flatMap (fun c => markedIds nodes edges fuel c.id))

/-- Concrete fan-out scenario of the spec (§8): `A → B`, `A → C`, all in
`All` mode, `A.prompt = "hi"`, no node data carrying a previous response. -/
def fanNodeA : Node := { id := "A", data := { prompt := some "hi" } }

def fanNodeB : Node := { id := "B", data := { prompt := some "pb" } }

def fanNodeC : Node := { id := "C", data := { prompt := some "pc" } }

def fanNodes : List Node := [fanNodeA, fanNodeB, fanNodeC]

def fanEdges : List Edge := [⟨"eAB", "A", "B"⟩, ⟨"eAC", "A", "C"⟩]

/-- Generation oracle for the fan scenario: every call succeeds, `A`
answering `"ans"`. -/
def fanGen : String → Option String :=
  fun i => if i == "A" then some "ans" else if i == "B" then some "bans" else some "cans"

/-- A branch-selection oracle that always fails (never consulted in
all-mode scenarios). -/
def noChoose : String → Option (String × String) := fun _ => none

/-- The fan scenario run in its one topological order. -/
def fanRun : RunState :=
  runFlow fanGen noChoose fanNodes fanEdges [fanNodeA, fanNodeB, fanNodeC]

/-- Failure scenario of the spec (§8): `X → Y`, the generation call for `X`
fails.  `X`'s node-data snapshot still carries `response = "stale"` from
before the run (the run resets the store's responses, but the `nodes` array
captured by the `runFlow` closure is not recomputed). -/
def staleNodeX : Node := { id := "X", data := { prompt := some "px", response := some "stale" } }

def staleNodeY : Node := { id := "Y", data := { prompt := some "py" } }

def staleNodes : List Node := [staleNodeX, staleNodeY]

def staleEdges : List Edge := [⟨"eXY", "X", "Y"⟩]

/-- Generation oracle for the failure scenario: `X` fails, `Y` succeeds. -/
def staleGen : String → Option String := fun i => if i == "X" then none else some "yans"

/-- The failure scenario run in its one topological order. -/
def staleRun : RunState :=
  runFlow staleGen noChoose staleNodes staleEdges [staleNodeX, staleNodeY]

/-- Decision scenario: `P` is a choose node with children `A2` and `B2`,
and `A2 → D2`. -/
def bogusParent : Node :=
  { id := "P",
    data := { label := some "P", prompt := some "pp",
              executionMode := some "choose", conditionPrompt := some "cond" } }

def bogusChildA : Node := { id := "A2", data := { label := some "La", prompt := some "pa" } }

def bogusChildB : Node := { id := "B2", data := { label := some "Lb", prompt := some "pb" } }

def bogusGrandchild : Node := { id := "D2", data := { prompt := some "pd" } }

def bogusNodes : List Node := [bogusParent, bogusChildA, bogusChildB, bogusGrandchild]

def bogusEdges : List Edge :=
  [⟨"e1", "P", "A2"⟩, ⟨"e2", "P", "B2"⟩, ⟨"e3", "A2", "D2"⟩]

/-- Branch-selection oracle returning, with a success status, an id that is
not among the supplied children. -/
def bogusChoose : String → Option (String × String) := fun _ => some ("bogus", "r")

/-- Generation oracle that always succeeds. -/
def okGen : String → Option String := fun i => some ("t" ++ i)

/-- The decision scenario run, with the out-of-set selection oracle, in a
topological order. -/
def bogusRun : RunState :=
  runFlow okGen bogusChoose bogusNodes bogusEdges
    [bogusParent, bogusChildA, bogusChildB, bogusGrandchild]

/-- The ids of a node list. -/
def nodeIds (nodes : List Node) : List String := nodes.map (fun n => n.id)

/-- The run-state components `markSubtreeSkipped` never touches. -/
def markQuiet (s : RunState) :
    List (String × Option String) × List (String × String) × List (String × String) ×
      List (String × (String × Bool)) × List (String × List Message) ×
      List (String × List Message) :=
  (s.resolved, s.responseMap, s.selectedChildMap, s.nodeResponses, s.genCalls, s.chooseCalls)

/-- A copy of a node with `executionMode` forced to `"all"`. -/
def allMode (node : Node) : Node :=
  { node with data := { node.data with executionMode := some "all" } }

/-- How many entries an association list holds for a key. -/
def countEntries {β : Type} (k : String) (l : List (String × β)) : Nat :=
  (l.filter (fun kv => kv.1 == k)).length

/-- Three-child decision scenario: `tP` is a choose node with children
`tA`, `tB`, `tC`; `tA → tD` gives `tA` a descendant. -/
def tP : Node :=
  { id := "tP",
    data := { label := some "LP", prompt := some "pp",
              executionMode := some "choose", conditionPrompt := some "cond" } }

def tA : Node := { id := "tA", data := { label := some "LA", prompt := some "pa" } }

def tB : Node := { id := "tB", data := { label := some "LB", prompt := some "pb" } }

def tC : Node := { id := "tC", data := { label := some "LC", prompt := some "pc" } }

def tD : Node := { id := "tD", data := { prompt := some "pd" } }

def tNodes : List Node := [tP, tA, tB, tC, tD]

def tEdges : List Edge :=
  [⟨"t1", "tP", "tA"⟩, ⟨"t2", "tP", "tB"⟩, ⟨"t3", "tP", "tC"⟩, ⟨"t4", "tA", "tD"⟩]

/-- Branch-selection oracle for the three-child scenario: selects `tB`. -/
def tChoose : String → Option (String × String) := fun _ => some ("tB", "r")

/-- The well-formedness invariant of `topologicalSort`'s depth-first state:
`visited` and `visiting` hold distinct ids disjoint from each other,
`visited` mirrors `sorted` (most recently finished first), `sorted` holds
graph nodes whose incomers are all finished, each before the node itself. -/
def SortInv (nodes : List Node) (edges : List Edge) (s : SortState) : Prop :=
  s.visited.Nodup ∧
  (∀ x ∈ s.visiting, x ∉ s.visited) ∧
  s.visiting.Nodup ∧
  s.visited = (s.sorted.map (fun n => n.id)).reverse ∧
  (∀ a ∈ s.sorted, a ∈ nodes) ∧
  (∀ a ∈ s.sorted, ∀ inc ∈ getIncomers a nodes edges, inc.id ∈ s.visited) ∧
  s.sorted.Pairwise (fun a b => b ∉ getIncomers a nodes edges) ∧
  (∀ a ∈ s.sorted, a ∉ getIncomers a nodes edges)

@[simp]
theorem truthy_none : truthy none = false := rfl

@[simp]
theorem truthy_some (s : String) : truthy (some s) = !s.isEmpty := rfl

theorem stripIfRun_id (n : Node) : (stripIfRun n).id = n.id := by
  unfold stripIfRun
  split <;> rfl

theorem stripIfRun_idem (n : Node) : stripIfRun (stripIfRun n) = stripIfRun n := by
  by_cases h : (truthy n.data.response || n.data.loading || truthy n.data.selectionState) = true
  · simp only [stripIfRun, h, if_pos]
    simp [stripRunFields]
  · simp only [stripIfRun, h]
    simp only [Bool.not_eq_true] at h
    simp [h]

theorem clearEdgeStyle_idem (e : StoreEdge) :
    clearEdgeStyle (clearEdgeStyle e) = clearEdgeStyle e := rfl

theorem map_idem_of {α : Type} (f : α → α) (h : ∀ a, f (f a) = f a) (l : List α) :
    (l.map f).map f = l.map f := by
  induction l with
  | nil => rfl
  | cons a t ih => simp [h, ih]

theorem map_pair_stripIfRun {β : Type} (g : Node → β) (hg : ∀ n, g (stripIfRun n) = g n)
    (l : List Node) : (l.map stripIfRun).map g = l.map g := by
  induction l with
  | nil => rfl
  | cons a t ih => simp [hg, ih]

theorem lookup_const_pair {β : Type} (v : β) (l : List Node) (n : Node) (hn : n ∈ l) :
    (l.map (fun m => (m.id, v))).lookup n.id = some v := by
  induction l with
  | nil => cases hn
  | cons a t ih =>
    rw [List.mem_cons] at hn
    by_cases h : (n.id == a.id) = true
    · simp [List.lookup, h]
    · rcases hn with rfl | hn
      · simp at h
      · simpa [List.lookup, h] using ih hn

/-- C9: `resetFlow()` is idempotent — a second call leaves the store state
exactly as the first left it — and after a call every node's fine-grained
response is `("", false)`, the persisted run-scoped fields are cleared
(when Zero is connected), the edge execution-state map is empty and every
edge's style/animation is reset. -/
theorem resetFlow_idempotent_and_clears (st : StoreState) :
    resetFlow (resetFlow st) = resetFlow st ∧
    (∀ n ∈ st.rawNodes, (resetFlow st).nodeResponses.lookup n.id = some ("", false)) ∧
    (resetFlow st).edgeExecutionStates = [] ∧
    (∀ e ∈ (resetFlow st).edges, e.style = none ∧ e.animated = false) ∧
    (st.zeroConnected = true → ∀ n ∈ (resetFlow st).rawNodes,
      truthy n.data.response = false ∧ n.data.loading = false ∧
      truthy n.data.selectionState = false) := by
  refine ⟨?_, ?_, ?_, ?_, ?_⟩
  · by_cases hzc : st.zeroConnected <;>
      simp [resetFlow, clearNodeResponses, clearEdgeExecutionStates, hzc,
        map_idem_of stripIfRun stripIfRun_idem,
        map_idem_of clearEdgeStyle clearEdgeStyle_idem,
        map_pair_stripIfRun (fun n => (n.id, (("" : String), false))) (fun n => by
          simp [stripIfRun_id])]
  · intro n hn
    by_cases hzc : st.zeroConnected <;>
      simp [resetFlow, clearNodeResponses, clearEdgeExecutionStates, hzc,
        lookup_const_pair _ _ _ hn]
  · by_cases hzc : st.zeroConnected <;>
      simp [resetFlow, clearNodeResponses, clearEdgeExecutionStates, hzc]
  · intro e he
    by_cases hzc : st.zeroConnected <;>
      · simp only [resetFlow, clearNodeResponses, clearEdgeExecutionStates, hzc] at he ⊢
        simp at he
        obtain ⟨e', -, rfl⟩ := he
        simp [clearEdgeStyle]
  · intro hzc n hn
    simp only [resetFlow, clearNodeResponses, clearEdgeExecutionStates, hzc] at hn
    simp at hn
    obtain ⟨m, -, rfl⟩ := hn
    by_cases h : (truthy m.data.response || m.data.loading || truthy m.data.selectionState) = true
    · simp [stripIfRun, h, stripRunFields]
    · simp only [Bool.not_eq_true, Bool.or_eq_false_iff] at h
      simp [stripIfRun, h.1, h.2]

/-- Witness for C9 at a concrete store state. -/
theorem resetFlow_idempotent_and_clears_witness :
    resetFlow (resetFlow
      (⟨[fanNodeA], [("A", ("old", true))], [("eAB", "complete")],
        [⟨"eAB", "A", "B", some "green", true⟩], true⟩ : StoreState)) =
    resetFlow
      (⟨[fanNodeA], [("A", ("old", true))], [("eAB", "complete")],
        [⟨"eAB", "A", "B", some "green", true⟩], true⟩ : StoreState) ∧
    (resetFlow
      (⟨[fanNodeA], [("A", ("old", true))], [("eAB", "complete")],
        [⟨"eAB", "A", "B", some "green", true⟩], true⟩ : StoreState)).nodeResponses.lookup "A"
      = some ("", false) := by
  refine ⟨(resetFlow_idempotent_and_clears _).1, ?_⟩
  exact (resetFlow_idempotent_and_clears _).2.1 fanNodeA (by simp)

/-- C1 (code bug): in the fan scenario `A → B`, `A → C` with
`A.prompt = "hi"`, the run records `completedText["A"] = "ans"` (the
`responseMap`), yet the histories actually sent for `B` and `C` are
`[{user, "hi"}, {user, <own prompt>}]` — `buildMessageHistory` ignores the
`responseMap` argument `createNodeExecution` passes it and reads the
node-data snapshot instead, so the assistant turn with `A`'s answer from
this run is missing. -/
theorem history_ignores_run_completed_text :
    fanRun.responseMap.lookup "A" = some "ans" ∧
    fanRun.genCalls.lookup "B" =
      some [{ role := "user", content := "hi" }, { role := "user", content := "pb" }] ∧
    fanRun.genCalls.lookup "C" =
      some [{ role := "user", content := "hi" }, { role := "user", content := "pc" }] ∧
    ([{ role := "user", content := "hi" }, { role := "user", content := "pb" }] :
        List Message) ≠
      [{ role := "user", content := "hi" }, { role := "assistant", content := "ans" },
        { role := "user", content := "pb" }] := by
  decide

/-- C5 (code bug): when `X`'s generation call fails, the failure is
contained exactly as claimed — `X` resolves to `null`, publishes
`("", false)`, nothing is skipped and downstream `Y` still executes — but
`Y`'s history does not show an empty assistant turn for `X`: it shows the
assistant turn built from `X`'s node-data snapshot (`"stale"`, left over
from before the run), because `buildMessageHistory` reads node data, not
the run's completed-text map. -/
theorem failed_node_contained_but_history_stale :
    staleRun.resolved.lookup "X" = some none ∧
    staleRun.nodeResponses.lookup "X" = some ("", false) ∧
    staleRun.skippedNodes = [] ∧
    staleRun.resolved.lookup "Y" = some (some "yans") ∧
    staleRun.genCalls.lookup "Y" =
      some [{ role := "user", content := "px" },
        { role := "assistant", content := "stale" },
        { role := "user", content := "py" }] := by
  decide

theorem buildMessageHistory_eq_chain (nodes : List Node) (edges : List Edge) :
    ∀ (fuel : Nat) (nodeId : String),
      buildMessageHistory fuel nodeId nodes edges =
        ((firstIncomerChain nodes edges fuel nodeId).reverse.map ancestorTurns).flatten := by
  intro fuel
  induction fuel with
  | zero => intro nodeId; rfl
  | succ fuel ih =>
    intro nodeId
    cases hf : nodes.find? (fun n => n.id == nodeId) with
    | none =>
      simp [buildMessageHistory, firstIncomerChain, firstIncomer, hf]
    | some cur =>
      cases hg : getIncomers cur nodes edges with
      | nil =>
        simp [buildMessageHistory, firstIncomerChain, firstIncomer, hf, hg]
      | cons p rest =>
        simp only [buildMessageHistory, firstIncomerChain, firstIncomer, hf, hg,
          List.head?_cons, List.reverse_cons, List.map_append, List.map_cons,
          List.map_nil, List.flatten_append, ih p.id]
        by_cases hp : truthy p.data.prompt <;> by_cases hr : truthy p.data.response <;>
          simp [hp, hr, ancestorTurns, List.append_assoc]

theorem buildMessageHistory_of_no_incomers (nodes : List Node) (edges : List Edge)
    (node : Node) (hf : nodes.find? (fun n => n.id == node.id) = some node)
    (hg : getIncomers node nodes edges = []) :
    ∀ fuel, buildMessageHistory fuel node.id nodes edges = [] := by
  intro fuel
  cases fuel with
  | zero => rfl
  | succ fuel => simp [buildMessageHistory, hf, hg]

/-- C6: the assembled history is exactly the concatenated turns of the
linear ancestor chain obtained by iterating `firstIncomer` (only the first
incomer of each ancestor is followed, in root-to-node order), and for a
node with no incomers the chain is empty, so the messages passed to the
Node Executor contain only the node's own prompt. -/
theorem history_is_first_incomer_chain (nodes : List Node) (edges : List Edge) :
    (∀ (fuel : Nat) (nodeId : String),
      buildMessageHistory fuel nodeId nodes edges =
        ((firstIncomerChain nodes edges fuel nodeId).reverse.map ancestorTurns).flatten) ∧
    (∀ node : Node, nodes.find? (fun n => n.id == node.id) = some node →
      getIncomers node nodes edges = [] →
      nodeMessages node nodes edges =
        if truthy node.data.prompt
        then [{ role := "user", content := orEmpty node.data.prompt }] else []) := by
  refine ⟨buildMessageHistory_eq_chain nodes edges, ?_⟩
  intro node hf hg
  simp [nodeMessages, buildMessageHistory_of_no_incomers nodes edges node hf hg]

/-- Witness for C6 at the fan scenario: `A` has no incomers and is passed
only its own prompt. -/
theorem history_is_first_incomer_chain_witness :
    buildMessageHistory 3 "B" fanNodes fanEdges =
      ((firstIncomerChain fanNodes fanEdges 3 "B").reverse.map ancestorTurns).flatten ∧
    nodeMessages fanNodeA fanNodes fanEdges =
      (if truthy fanNodeA.data.prompt
        then [{ role := "user", content := orEmpty fanNodeA.data.prompt }] else []) := by
  refine ⟨(history_is_first_incomer_chain fanNodes fanEdges).1 3 "B", ?_⟩
  exact (history_is_first_incomer_chain fanNodes fanEdges).2 fanNodeA (by decide) (by decide)

theorem contains_iff_mem (l : List String) (x : String) : l.contains x = true ↔ x ∈ l :=
  List.elem_iff

theorem dedupFirstAux_mem (x : String) :
    ∀ (l seen : List String), x ∈ dedupFirstAux seen l ↔ x ∈ l ∧ x ∉ seen := by
  intro l
  induction l with
  | nil => intro seen; simp [dedupFirstAux]
  | cons y ys ih =>
    intro seen
    by_cases hy : seen.contains y = true
    · rw [dedupFirstAux, if_pos hy, ih]
      have hys : y ∈ seen := (contains_iff_mem _ _).mp hy
      constructor
      · rintro ⟨h1, h2⟩
        exact ⟨List.mem_cons_of_mem _ h1, h2⟩
      · rintro ⟨h1, h2⟩
        rcases List.mem_cons.mp h1 with rfl | h1
        · exact absurd hys h2
        · exact ⟨h1, h2⟩
    · rw [dedupFirstAux, if_neg hy]
      have hys : y ∉ seen := fun h => hy ((contains_iff_mem _ _).mpr h)
      constructor
      · intro h
        rcases List.mem_cons.mp h with rfl | h
        · exact ⟨List.mem_cons_self _ _, hys⟩
        · obtain ⟨h1, h2⟩ := (ih (y :: seen)).mp h
          refine ⟨List.mem_cons_of_mem _ h1, fun hs => h2 (List.mem_cons_of_mem _ hs)⟩
      · rintro ⟨h1, h2⟩
        rcases List.mem_cons.mp h1 with rfl | h1
        · exact List.mem_cons_self _ _
        · by_cases hxy : x = y
          · subst hxy; exact List.mem_cons_self _ _
          · exact List.mem_cons_of_mem _ ((ih (y :: seen)).mpr
              ⟨h1, fun hs => (List.mem_cons.mp hs).elim hxy h2⟩)

theorem dedupFirst_mem (x : String) (l : List String) : x ∈ dedupFirst l ↔ x ∈ l := by
  rw [dedupFirst, dedupFirstAux_mem]
  simp

theorem foldl_proj {σ α β : Type} (proj : σ → β) (f : σ → α → σ)
    (l : List α) (s : σ) (h : ∀ t a, proj (f t a) = proj t) :
    proj (l.foldl f s) = proj s := by
  induction l generalizing s with
  | nil => rfl
  | cons a t ih => rw [List.foldl_cons, ih, h]

theorem mark_markQuiet (nodes : List Node) (edges : List Edge) :
    ∀ (fuel : Nat) (nid : String) (s : RunState),
      markQuiet (markSubtreeSkipped nodes edges fuel nid s) = markQuiet s := by
  intro fuel
  induction fuel with
  | zero => intro nid s; rfl
  | succ fuel ih =>
    intro nid s
    cases hf : nodes.find? (fun n => n.id == nid) with
    | none => simp only [markSubtreeSkipped, hf]; rfl
    | some node =>
      simp only [markSubtreeSkipped, hf]
      rw [foldl_proj markQuiet
          (fun (t : RunState) (c : Node) => markSubtreeSkipped nodes edges fuel c.id t)
          _ _ (fun t c => ih c.id t),
        foldl_proj markQuiet
          (fun (t : RunState) (e : Edge) => setEdgeState e.id "skipped" t)
          _ _ (fun t e => rfl)]
      rfl

theorem mark_skipped_mem (nodes : List Node) (edges : List Edge) :
    ∀ (fuel : Nat) (nid : String) (s : RunState) (x : String),
      (x ∈ (markSubtreeSkipped nodes edges fuel nid s).skippedNodes ↔
        x ∈ s.skippedNodes ∨ x ∈ markedIds nodes edges fuel nid) := by
  intro fuel
  induction fuel with
  | zero => intro nid s x; simp [markSubtreeSkipped, markedIds]
  | succ fuel ih =>
    intro nid s x
    have hfold : ∀ (cs : List Node) (t : RunState),
        (x ∈ (cs.foldl (fun u c => markSubtreeSkipped nodes edges fuel c.id u) t).skippedNodes ↔
          x ∈ t.skippedNodes ∨ ∃ c ∈ cs, x ∈ markedIds nodes edges fuel c.id) := by
      intro cs
      induction cs with
      | nil => intro t; simp
      | cons c cs ihc =>
        intro t
        rw [List.foldl_cons, ihc, ih]
        constructor
        · rintro ((h | h) | h)
          · exact Or.inl h
          · exact Or.inr ⟨c, List.mem_cons_self _ _, h⟩
          · obtain ⟨d, hd, hx⟩ := h
            exact Or.inr ⟨d, List.mem_cons_of_mem _ hd, hx⟩
        · rintro (h | ⟨d, hd, hx⟩)
          · exact Or.inl (Or.inl h)
          · rcases List.mem_cons.mp hd with rfl | hd
            · exact Or.inl (Or.inr hx)
            · exact Or.inr ⟨d, hd, hx⟩
    have hedge : ∀ (es : List Edge) (t : RunState),
        ((es.foldl (fun u e => setEdgeState e.id "skipped" u) t).skippedNodes
          = t.skippedNodes) :=
      fun es t => foldl_proj (fun (u : RunState) => u.skippedNodes)
        (fun (u : RunState) (e : Edge) => setEdgeState e.id "skipped" u) es t
        (fun _ _ => rfl)
    rw [markSubtreeSkipped, markedIds]
    cases hf : nodes.find? (fun n => n.id == nid) with
    | none =>
      simp only [List.mem_cons]
      tauto
    | some node =>
      rw [hfold, hedge]
      simp only [List.mem_cons, List.mem_flatMap]
      tauto

theorem mark_selection_lookup (nodes : List Node) (edges : List Edge) :
    ∀ (fuel : Nat) (nid : String) (s : RunState) (x : String),
      ((markSubtreeSkipped nodes edges fuel nid s).selectionStates.lookup x =
        if x ∈ markedIds nodes edges fuel nid then some "skipped"
        else s.selectionStates.lookup x) := by
  intro fuel
  induction fuel with
  | zero => intro nid s x; simp [markSubtreeSkipped, markedIds]
  | succ fuel ih =>
    intro nid s x
    have hfold : ∀ (cs : List Node) (t : RunState),
        ((cs.foldl (fun u c => markSubtreeSkipped nodes edges fuel c.id u) t).selectionStates.lookup x =
          if ∃ c ∈ cs, x ∈ markedIds nodes edges fuel c.id then some "skipped"
          else t.selectionStates.lookup x) := by
      intro cs
      induction cs with
      | nil => intro t; simp
      | cons c cs ihc =>
        intro t
        rw [List.foldl_cons, ihc, ih]
        by_cases h1 : ∃ d ∈ cs, x ∈ markedIds nodes edges fuel d.id
        · rw [if_pos h1, if_pos]
          obtain ⟨d, hd, hx⟩ := h1
          exact ⟨d, List.mem_cons_of_mem _ hd, hx⟩
        · rw [if_neg h1]
          by_cases h2 : x ∈ markedIds nodes edges fuel c.id
          · rw [if_pos h2, if_pos ⟨c, List.mem_cons_self _ _, h2⟩]
          · rw [if_neg h2, if_neg]
            rintro ⟨d, hd, hx⟩
            rcases List.mem_cons.mp hd with rfl | hd
            · exact h2 hx
            · exact h1 ⟨d, hd, hx⟩
    have hedge : ∀ (es : List Edge) (t : RunState),
        ((es.foldl (fun u e => setEdgeState e.id "skipped" u) t).selectionStates
          = t.selectionStates) :=
      fun es t => foldl_proj (fun (u : RunState) => u.selectionStates)
        (fun (u : RunState) (e : Edge) => setEdgeState e.id "skipped" u) es t
        (fun _ _ => rfl)
    rw [markSubtreeSkipped, markedIds]
    cases hf : nodes.find? (fun n => n.id == nid) with
    | none =>
      simp only [List.mem_cons, List.not_mem_nil, or_false]
      by_cases hx : x = nid
      · subst hx
        simp [List.lookup]
      · rw [if_neg hx]
        have : (x == nid) = false := by simp [hx]
        simp [List.lookup, this]
    | some node =>
      rw [hfold, hedge]
      by_cases h1 : ∃ c ∈ getOutgoers node nodes edges, x ∈ markedIds nodes edges fuel c.id
      · rw [if_pos h1, if_pos]
        simp only [List.mem_cons, List.mem_flatMap]
        exact Or.inr h1
      · rw [if_neg h1]
        by_cases hx : x = nid
        · subst hx
          rw [if_pos (List.mem_cons_self _ _)]
          simp [List.lookup]
        · rw [if_neg]
          · have : (x == nid) = false := by simp [hx]
            simp [List.lookup, this]
          · simp only [List.mem_cons, List.mem_flatMap]
            rintro (h | h)
            · exact hx h
            · exact h1 h

theorem markFold_skipped_mem (nodes : List Node) (edges : List Edge) (fuel : Nat)
    (cs : List Node) (t : RunState) (x : String) :
    (x ∈ (cs.foldl (fun u c => markSubtreeSkipped nodes edges fuel c.id u) t).skippedNodes ↔
      x ∈ t.skippedNodes ∨ ∃ c ∈ cs, x ∈ markedIds nodes edges fuel c.id) := by
  induction cs generalizing t with
  | nil => simp
  | cons c cs ihc =>
    rw [List.foldl_cons, ihc, mark_skipped_mem]
    constructor
    · rintro ((h | h) | h)
      · exact Or.inl h
      · exact Or.inr ⟨c, List.mem_cons_self _ _, h⟩
      · obtain ⟨d, hd, hx⟩ := h
        exact Or.inr ⟨d, List.mem_cons_of_mem _ hd, hx⟩
    · rintro (h | ⟨d, hd, hx⟩)
      · exact Or.inl (Or.inl h)
      · rcases List.mem_cons.mp hd with rfl | hd
        · exact Or.inl (Or.inr hx)
        · exact Or.inr ⟨d, hd, hx⟩

theorem markFold_selection_lookup (nodes : List Node) (edges : List Edge) (fuel : Nat)
    (cs : List Node) (t : RunState) (x : String) :
    ((cs.foldl (fun u c => markSubtreeSkipped nodes edges fuel c.id u) t).selectionStates.lookup x =
      if ∃ c ∈ cs, x ∈ markedIds nodes edges fuel c.id then some "skipped"
      else t.selectionStates.lookup x) := by
  induction cs generalizing t with
  | nil => simp
  | cons c cs ihc =>
    rw [List.foldl_cons, ihc, mark_selection_lookup]
    by_cases h1 : ∃ d ∈ cs, x ∈ markedIds nodes edges fuel d.id
    · rw [if_pos h1, if_pos]
      obtain ⟨d, hd, hx⟩ := h1
      exact ⟨d, List.mem_cons_of_mem _ hd, hx⟩
    · rw [if_neg h1]
      by_cases h2 : x ∈ markedIds nodes edges fuel c.id
      · rw [if_pos h2, if_pos ⟨c, List.mem_cons_self _ _, h2⟩]
      · rw [if_neg h2, if_neg]
        rintro ⟨d, hd, hx⟩
        rcases List.mem_cons.mp hd with rfl | hd
        · exact h2 hx
        · exact h1 ⟨d, hd, hx⟩

theorem step_marked (nodes : List Node) (edges : List Edge) {a c : String}
    (h : edgeStep nodes edges a c) (fuel : Nat) (x : String)
    (hx : x ∈ markedIds nodes edges fuel c) :
    x ∈ markedIds nodes edges (fuel + 1) a := by
  obtain ⟨⟨e, he, hs, ht⟩, ⟨na, hna, hida⟩, ⟨nc, hnc, hidc⟩⟩ := h
  obtain ⟨n', hn'⟩ := Option.isSome_iff_exists.mp
    (List.find?_isSome.mpr ⟨na, hna, by simp [hida]⟩ :
      (nodes.find? (fun n => n.id == a)).isSome = true)
  have hid' : n'.id = a := by simpa using List.find?_some hn'
  obtain ⟨m', hm'⟩ := Option.isSome_iff_exists.mp
    (List.find?_isSome.mpr ⟨nc, hnc, by simp [hidc]⟩ :
      (nodes.find? (fun n => n.id == c)).isSome = true)
  have hmid : m'.id = c := by simpa using List.find?_some hm'
  have hout : m' ∈ getOutgoers n' nodes edges := by
    rw [getOutgoers, List.mem_filterMap]
    refine ⟨c, ?_, hm'⟩
    rw [dedupFirst_mem, List.mem_map]
    refine ⟨e, ?_, ht⟩
    rw [List.mem_filter]
    exact ⟨he, by simp [hs, hid']⟩
  simp only [markedIds, hn']
  apply List.mem_cons_of_mem
  rw [List.mem_flatMap]
  exact ⟨m', hout, by rw [hmid]; exact hx⟩

theorem markedIds_reaches (nodes : List Node) (edges : List Edge) :
    ∀ (fuel : Nat) (a x : String), x ∈ markedIds nodes edges fuel a →
      reaches nodes edges a x := by
  intro fuel
  induction fuel with
  | zero => intro a x h; simp [markedIds] at h
  | succ fuel ih =>
    intro a x h
    cases hf : nodes.find? (fun n => n.id == a) with
    | none =>
      simp only [markedIds, hf] at h
      simp at h
      subst h
      exact Relation.ReflTransGen.refl
    | some node =>
      simp only [markedIds, hf] at h
      rcases List.mem_cons.mp h with rfl | h
      · exact Relation.ReflTransGen.refl
      · rw [List.mem_flatMap] at h
        obtain ⟨cnode, hc, hx⟩ := h
        have hnid : node.id = a := by simpa using List.find?_some hf
        have hnmem : node ∈ nodes := List.mem_of_find?_eq_some hf
        rw [getOutgoers, List.mem_filterMap] at hc
        obtain ⟨tid, htid, hfind⟩ := hc
        have hcid : cnode.id = tid := by simpa using List.find?_some hfind
        have hcmem : cnode ∈ nodes := List.mem_of_find?_eq_some hfind
        rw [dedupFirst_mem, List.mem_map] at htid
        obtain ⟨e, he, hetgt⟩ := htid
        rw [List.mem_filter] at he
        have hesrc : e.source = node.id := by simpa using he.2
        have hstep : edgeStep nodes edges a cnode.id := by
          refine ⟨⟨e, he.1, ?_, by rw [hetgt, hcid]⟩, ⟨node, hnmem, hnid⟩, ⟨cnode, hcmem, rfl⟩⟩
          rw [hesrc, hnid]
        exact Relation.ReflTransGen.head hstep (ih _ _ hx)

theorem getLastD_append_cons (c : String) (ys : List String) :
    ∀ (xs : List String) (d : String), (xs ++ c :: ys).getLastD d = ys.getLastD c := by
  intro xs
  induction xs with
  | nil => intro d; rw [List.nil_append, List.getLastD_cons]
  | cons x xs ih => intro d; rw [List.cons_append, List.getLastD_cons, ih]

theorem exists_nodup_chain {R : String → String → Prop} :
    ∀ (n : Nat) (l : List String) (a : String), l.length ≤ n → List.Chain R a l →
      ∃ l', List.Chain R a l' ∧ l'.getLastD a = l.getLastD a ∧ (a :: l').Nodup ∧ l' ⊆ l := by
  intro n
  induction n with
  | zero =>
    intro l a hlen hch
    have : l = [] := List.length_eq_zero.mp (Nat.le_zero.mp hlen)
    subst this
    exact ⟨[], List.Chain.nil, rfl, List.nodup_singleton a, List.Subset.refl _⟩
  | succ n ihn =>
    intro l a hlen hch
    by_cases hmem : a ∈ l
    · obtain ⟨l₁, l₂, rfl⟩ := List.append_of_mem hmem
      have hch₂ : List.Chain R a l₂ := (List.chain_split.mp hch).2
      have hlen₂ : l₂.length ≤ n := by
        simp [List.length_append] at hlen
        omega
      obtain ⟨l', h1, h2, h3, h4⟩ := ihn l₂ a hlen₂ hch₂
      refine ⟨l', h1, ?_, h3, fun x hx => ?_⟩
      · rw [h2, getLastD_append_cons]
      · exact List.mem_append.mpr (Or.inr (List.mem_cons_of_mem _ (h4 hx)))
    · cases l with
      | nil => exact ⟨[], List.Chain.nil, rfl, List.nodup_singleton a, List.Subset.refl _⟩
      | cons c m =>
        have hac : R a c := (List.chain_cons.mp hch).1
        have hcm : List.Chain R c m := (List.chain_cons.mp hch).2
        have hlenm : m.length ≤ n := by
          simp at hlen
          omega
        obtain ⟨m', h1, h2, h3, h4⟩ := ihn m c hlenm hcm
        refine ⟨c :: m', List.chain_cons.mpr ⟨hac, h1⟩, ?_, ?_, ?_⟩
        · rw [List.getLastD_cons, List.getLastD_cons, h2]
        · refine List.nodup_cons.mpr ⟨?_, h3⟩
          intro hax
          rcases List.mem_cons.mp hax with rfl | hax
          · exact hmem (List.mem_cons_self _ _)
          · exact hmem (List.mem_cons_of_mem _ (h4 hax))
        · intro x hx
          rcases List.mem_cons.mp hx with rfl | hx
          · exact List.mem_cons_self _ _
          · exact List.mem_cons_of_mem _ (h4 hx)

theorem chain_mem_ids (nodes : List Node) (edges : List Edge) :
    ∀ {a : String} {l : List String}, List.Chain (edgeStep nodes edges) a l →
      ∀ x ∈ l, x ∈ nodeIds nodes := by
  intro a l hch
  induction hch with
  | nil => simp
  | @cons a b t hab hbt ih =>
    intro x hx
    rcases List.mem_cons.mp hx with rfl | hx
    · obtain ⟨-, -, nb, hnb, hid⟩ := hab
      exact List.mem_map.mpr ⟨nb, hnb, hid⟩
    · exact ih x hx

theorem chain_covered (nodes : List Node) (edges : List Edge) :
    ∀ (l : List String) (a : String), List.Chain (edgeStep nodes edges) a l →
      ∀ fuel, l.length < fuel → l.getLastD a ∈ markedIds nodes edges fuel a := by
  intro l
  induction l with
  | nil =>
    intro a hch fuel hf
    cases fuel with
    | zero => omega
    | succ fuel => simp [markedIds]
  | cons c m ih =>
    intro a hch fuel hf
    cases fuel with
    | zero => omega
    | succ fuel =>
      have hac : edgeStep nodes edges a c := (List.chain_cons.mp hch).1
      have hcm := (List.chain_cons.mp hch).2
      have hmem : m.getLastD c ∈ markedIds nodes edges fuel c := by
        refine ih c hcm fuel ?_
        simp at hf
        omega
      have hstep := step_marked nodes edges hac fuel _ hmem
      rw [List.getLastD_cons]
      exact hstep

theorem reaches_marked (nodes : List Node) (edges : List Edge) (a x : String)
    (h : reaches nodes edges a x) :
    x ∈ markedIds nodes edges (nodes.length + 1) a := by
  obtain ⟨l, hch, hlast⟩ := List.exists_chain_of_relationReflTransGen h
  rw [List.getLast_eq_getLastD] at hlast
  obtain ⟨l', h1, h2, h3, h4⟩ := exists_nodup_chain l.length l a (le_refl _) hch
  have hsub : l' ⊆ nodeIds nodes := fun y hy => chain_mem_ids nodes edges h1 y hy
  have hnodup : l'.Nodup := (List.nodup_cons.mp h3).2
  have hlen : l'.length ≤ nodes.length := by
    have := (List.Nodup.subperm hnodup hsub).length_le
    simpa [nodeIds] using this
  have hcov := chain_covered nodes edges l' a h1 (nodes.length + 1) (by omega)
  rw [h2, hlast] at hcov
  exact hcov

/-- C8: `markSubtreeSkipped` is idempotent — a second application to the
same node id changes neither membership in the skipped set nor any
selection-state lookup — and after one application the node and every node
reachable from it along outgoing edges is in the skipped set with selection
state `"skipped"`.  (`nodes.length + 1` is the fuel `runBody` uses; it
covers every reachable node.) -/
theorem markSubtreeSkipped_idempotent_and_covers
    (nodes : List Node) (edges : List Edge) (nodeId : String) (s : RunState) :
    (∀ x, x ∈ (markSubtreeSkipped nodes edges (nodes.length + 1) nodeId
          (markSubtreeSkipped nodes edges (nodes.length + 1) nodeId s)).skippedNodes ↔
        x ∈ (markSubtreeSkipped nodes edges (nodes.length + 1) nodeId s).skippedNodes) ∧
    (∀ x, (markSubtreeSkipped nodes edges (nodes.length + 1) nodeId
          (markSubtreeSkipped nodes edges (nodes.length + 1) nodeId s)).selectionStates.lookup x =
        (markSubtreeSkipped nodes edges (nodes.length + 1) nodeId s).selectionStates.lookup x) ∧
    (∀ x, reaches nodes edges nodeId x →
        x ∈ (markSubtreeSkipped nodes edges (nodes.length + 1) nodeId s).skippedNodes ∧
        (markSubtreeSkipped nodes edges (nodes.length + 1) nodeId s).selectionStates.lookup x
          = some "skipped") := by
  refine ⟨?_, ?_, ?_⟩
  · intro x
    rw [mark_skipped_mem, mark_skipped_mem]
    tauto
  · intro x
    rw [mark_selection_lookup, mark_selection_lookup]
    by_cases h : x ∈ markedIds nodes edges (nodes.length + 1) nodeId <;> simp [h]
  · intro x hx
    have hm := reaches_marked nodes edges nodeId x hx
    constructor
    · rw [mark_skipped_mem]
      exact Or.inr hm
    · rw [mark_selection_lookup, if_pos hm]

/-- Witness for C8: skipping `A2` in the decision scenario marks its child
`D2` skipped. -/
theorem markSubtreeSkipped_idempotent_and_covers_witness :
    "D2" ∈ (markSubtreeSkipped bogusNodes bogusEdges (bogusNodes.length + 1) "A2"
        emptyRunState).skippedNodes ∧
    (markSubtreeSkipped bogusNodes bogusEdges (bogusNodes.length + 1) "A2"
        emptyRunState).selectionStates.lookup "D2" = some "skipped" := by
  refine (markSubtreeSkipped_idempotent_and_covers bogusNodes bogusEdges "A2"
    emptyRunState).2.2 "D2" (Relation.ReflTransGen.single ?_)
  exact ⟨⟨⟨"e3", "A2", "D2"⟩, by simp [bogusEdges], rfl, rfl⟩,
    ⟨bogusChildA, by simp [bogusNodes], rfl⟩,
    ⟨bogusGrandchild, by simp [bogusNodes], rfl⟩⟩

theorem mark_components (nodes : List Node) (edges : List Edge) (fuel : Nat)
    (nid : String) (s : RunState) :
    (markSubtreeSkipped nodes edges fuel nid s).resolved = s.resolved ∧
    (markSubtreeSkipped nodes edges fuel nid s).responseMap = s.responseMap ∧
    (markSubtreeSkipped nodes edges fuel nid s).selectedChildMap = s.selectedChildMap ∧
    (markSubtreeSkipped nodes edges fuel nid s).nodeResponses = s.nodeResponses ∧
    (markSubtreeSkipped nodes edges fuel nid s).genCalls = s.genCalls ∧
    (markSubtreeSkipped nodes edges fuel nid s).chooseCalls = s.chooseCalls := by
  have h := mark_markQuiet nodes edges fuel nid s
  simp only [markQuiet, Prod.mk.injEq] at h
  exact ⟨h.1, h.2.1, h.2.2.1, h.2.2.2.1, h.2.2.2.2.1, h.2.2.2.2.2⟩

theorem markNodeSelected_components (edges : List Edge) (nid : String) (s : RunState) :
    (markNodeSelected edges nid s).resolved = s.resolved ∧
    (markNodeSelected edges nid s).responseMap = s.responseMap ∧
    (markNodeSelected edges nid s).selectedChildMap = s.selectedChildMap ∧
    (markNodeSelected edges nid s).skippedNodes = s.skippedNodes ∧
    (markNodeSelected edges nid s).nodeResponses = s.nodeResponses ∧
    (markNodeSelected edges nid s).genCalls = s.genCalls ∧
    (markNodeSelected edges nid s).chooseCalls = s.chooseCalls := by
  unfold markNodeSelected
  refine ⟨?_, ?_, ?_, ?_, ?_, ?_, ?_⟩
  · rw [foldl_proj (fun (u : RunState) => u.resolved)
      (fun (t : RunState) (e : Edge) => setEdgeState e.id "selected" t) _ _ (fun _ _ => rfl)]
  · rw [foldl_proj (fun (u : RunState) => u.responseMap)
      (fun (t : RunState) (e : Edge) => setEdgeState e.id "selected" t) _ _ (fun _ _ => rfl)]
  · rw [foldl_proj (fun (u : RunState) => u.selectedChildMap)
      (fun (t : RunState) (e : Edge) => setEdgeState e.id "selected" t) _ _ (fun _ _ => rfl)]
  · rw [foldl_proj (fun (u : RunState) => u.skippedNodes)
      (fun (t : RunState) (e : Edge) => setEdgeState e.id "selected" t) _ _ (fun _ _ => rfl)]
  · rw [foldl_proj (fun (u : RunState) => u.nodeResponses)
      (fun (t : RunState) (e : Edge) => setEdgeState e.id "selected" t) _ _ (fun _ _ => rfl)]
  · rw [foldl_proj (fun (u : RunState) => u.genCalls)
      (fun (t : RunState) (e : Edge) => setEdgeState e.id "selected" t) _ _ (fun _ _ => rfl)]
  · rw [foldl_proj (fun (u : RunState) => u.chooseCalls)
      (fun (t : RunState) (e : Edge) => setEdgeState e.id "selected" t) _ _ (fun _ _ => rfl)]

theorem markNodeSelected_selection_lookup (edges : List Edge) (nid : String)
    (s : RunState) (x : String) :
    (markNodeSelected edges nid s).selectionStates.lookup x =
      if x == nid then some "selected" else s.selectionStates.lookup x := by
  unfold markNodeSelected
  rw [foldl_proj (fun (u : RunState) => u.selectionStates)
    (fun (t : RunState) (e : Edge) => setEdgeState e.id "selected" t) _ _ (fun _ _ => rfl)]
  by_cases h : (x == nid) = true <;> simp [List.lookup, h]

theorem markEdgesComplete_components (edges : List Edge) (nid : String) (s : RunState) :
    (markEdgesComplete edges nid s).resolved = s.resolved ∧
    (markEdgesComplete edges nid s).responseMap = s.responseMap ∧
    (markEdgesComplete edges nid s).selectedChildMap = s.selectedChildMap ∧
    (markEdgesComplete edges nid s).skippedNodes = s.skippedNodes ∧
    (markEdgesComplete edges nid s).selectionStates = s.selectionStates ∧
    (markEdgesComplete edges nid s).nodeResponses = s.nodeResponses ∧
    (markEdgesComplete edges nid s).genCalls = s.genCalls ∧
    (markEdgesComplete edges nid s).chooseCalls = s.chooseCalls := by
  unfold markEdgesComplete
  refine ⟨?_, ?_, ?_, ?_, ?_, ?_, ?_, ?_⟩
  · rw [foldl_proj (fun (u : RunState) => u.resolved)
      (fun (t : RunState) (e : Edge) =>
        if t.skippedNodes.contains nid then t else setEdgeState e.id "complete" t)
      _ _ (fun t e => by
        by_cases h : nid ∈ t.skippedNodes <;> simp [h, setEdgeState])]
  · rw [foldl_proj (fun (u : RunState) => u.responseMap)
      (fun (t : RunState) (e : Edge) =>
        if t.skippedNodes.contains nid then t else setEdgeState e.id "complete" t)
      _ _ (fun t e => by
        by_cases h : nid ∈ t.skippedNodes <;> simp [h, setEdgeState])]
  · rw [foldl_proj (fun (u : RunState) => u.selectedChildMap)
      (fun (t : RunState) (e : Edge) =>
        if t.skippedNodes.contains nid then t else setEdgeState e.id "complete" t)
      _ _ (fun t e => by
        by_cases h : nid ∈ t.skippedNodes <;> simp [h, setEdgeState])]
  · rw [foldl_proj (fun (u : RunState) => u.skippedNodes)
      (fun (t : RunState) (e : Edge) =>
        if t.skippedNodes.contains nid then t else setEdgeState e.id "complete" t)
      _ _ (fun t e => by
        by_cases h : nid ∈ t.skippedNodes <;> simp [h, setEdgeState])]
  · rw [foldl_proj (fun (u : RunState) => u.selectionStates)
      (fun (t : RunState) (e : Edge) =>
        if t.skippedNodes.contains nid then t else setEdgeState e.id "complete" t)
      _ _ (fun t e => by
        by_cases h : nid ∈ t.skippedNodes <;> simp [h, setEdgeState])]
  · rw [foldl_proj (fun (u : RunState) => u.nodeResponses)
      (fun (t : RunState) (e : Edge) =>
        if t.skippedNodes.contains nid then t else setEdgeState e.id "complete" t)
      _ _ (fun t e => by
        by_cases h : nid ∈ t.skippedNodes <;> simp [h, setEdgeState])]
  · rw [foldl_proj (fun (u : RunState) => u.genCalls)
      (fun (t : RunState) (e : Edge) =>
        if t.skippedNodes.contains nid then t else setEdgeState e.id "complete" t)
      _ _ (fun t e => by
        by_cases h : nid ∈ t.skippedNodes <;> simp [h, setEdgeState])]
  · rw [foldl_proj (fun (u : RunState) => u.chooseCalls)
      (fun (t : RunState) (e : Edge) =>
        if t.skippedNodes.contains nid then t else setEdgeState e.id "complete" t)
      _ _ (fun t e => by
        by_cases h : nid ∈ t.skippedNodes <;> simp [h, setEdgeState])]

theorem self_mem_markedIds (nodes : List Node) (edges : List Edge) (fuel : Nat)
    (nid : String) : nid ∈ markedIds nodes edges (fuel + 1) nid := by
  simp only [markedIds]
  exact List.mem_cons_self _ _

@[simp]
theorem mark_resolved_eq (nodes : List Node) (edges : List Edge) (fuel : Nat)
    (nid : String) (s : RunState) :
    (markSubtreeSkipped nodes edges fuel nid s).resolved = s.resolved :=
  (mark_components nodes edges fuel nid s).1

@[simp]
theorem mark_responseMap_eq (nodes : List Node) (edges : List Edge) (fuel : Nat)
    (nid : String) (s : RunState) :
    (markSubtreeSkipped nodes edges fuel nid s).responseMap = s.responseMap :=
  (mark_components nodes edges fuel nid s).2.1

@[simp]
theorem mark_selectedChildMap_eq (nodes : List Node) (edges : List Edge) (fuel : Nat)
    (nid : String) (s : RunState) :
    (markSubtreeSkipped nodes edges fuel nid s).selectedChildMap = s.selectedChildMap :=
  (mark_components nodes edges fuel nid s).2.2.1

@[simp]
theorem mark_nodeResponses_eq (nodes : List Node) (edges : List Edge) (fuel : Nat)
    (nid : String) (s : RunState) :
    (markSubtreeSkipped nodes edges fuel nid s).nodeResponses = s.nodeResponses :=
  (mark_components nodes edges fuel nid s).2.2.2.1

@[simp]
theorem mark_genCalls_eq (nodes : List Node) (edges : List Edge) (fuel : Nat)
    (nid : String) (s : RunState) :
    (markSubtreeSkipped nodes edges fuel nid s).genCalls = s.genCalls :=
  (mark_components nodes edges fuel nid s).2.2.2.2.1

@[simp]
theorem mark_chooseCalls_eq (nodes : List Node) (edges : List Edge) (fuel : Nat)
    (nid : String) (s : RunState) :
    (markSubtreeSkipped nodes edges fuel nid s).chooseCalls = s.chooseCalls :=
  (mark_components nodes edges fuel nid s).2.2.2.2.2

@[simp]
theorem markNodeSelected_resolved_eq (edges : List Edge) (nid : String) (s : RunState) :
    (markNodeSelected edges nid s).resolved = s.resolved :=
  (markNodeSelected_components edges nid s).1

@[simp]
theorem markNodeSelected_responseMap_eq (edges : List Edge) (nid : String) (s : RunState) :
    (markNodeSelected edges nid s).responseMap = s.responseMap :=
  (markNodeSelected_components edges nid s).2.1

@[simp]
theorem markNodeSelected_selectedChildMap_eq (edges : List Edge) (nid : String)
    (s : RunState) :
    (markNodeSelected edges nid s).selectedChildMap = s.selectedChildMap :=
  (markNodeSelected_components edges nid s).2.2.1

@[simp]
theorem markNodeSelected_skipped_eq (edges : List Edge) (nid : String) (s : RunState) :
    (markNodeSelected edges nid s).skippedNodes = s.skippedNodes :=
  (markNodeSelected_components edges nid s).2.2.2.1

@[simp]
theorem markNodeSelected_nodeResponses_eq (edges : List Edge) (nid : String) (s : RunState) :
    (markNodeSelected edges nid s).nodeResponses = s.nodeResponses :=
  (markNodeSelected_components edges nid s).2.2.2.2.1

@[simp]
theorem markNodeSelected_genCalls_eq (edges : List Edge) (nid : String) (s : RunState) :
    (markNodeSelected edges nid s).genCalls = s.genCalls :=
  (markNodeSelected_components edges nid s).2.2.2.2.2.1

@[simp]
theorem markNodeSelected_chooseCalls_eq (edges : List Edge) (nid : String) (s : RunState) :
    (markNodeSelected edges nid s).chooseCalls = s.chooseCalls :=
  (markNodeSelected_components edges nid s).2.2.2.2.2.2

@[simp]
theorem markEdgesComplete_resolved_eq (edges : List Edge) (nid : String) (s : RunState) :
    (markEdgesComplete edges nid s).resolved = s.resolved :=
  (markEdgesComplete_components edges nid s).1

@[simp]
theorem markEdgesComplete_responseMap_eq (edges : List Edge) (nid : String) (s : RunState) :
    (markEdgesComplete edges nid s).responseMap = s.responseMap :=
  (markEdgesComplete_components edges nid s).2.1

@[simp]
theorem markEdgesComplete_selectedChildMap_eq (edges : List Edge) (nid : String)
    (s : RunState) :
    (markEdgesComplete edges nid s).selectedChildMap = s.selectedChildMap :=
  (markEdgesComplete_components edges nid s).2.2.1

@[simp]
theorem markEdgesComplete_skipped_eq (edges : List Edge) (nid : String) (s : RunState) :
    (markEdgesComplete edges nid s).skippedNodes = s.skippedNodes :=
  (markEdgesComplete_components edges nid s).2.2.2.1

@[simp]
theorem markEdgesComplete_selectionStates_eq (edges : List Edge) (nid : String)
    (s : RunState) :
    (markEdgesComplete edges nid s).selectionStates = s.selectionStates :=
  (markEdgesComplete_components edges nid s).2.2.2.2.1

@[simp]
theorem markEdgesComplete_nodeResponses_eq (edges : List Edge) (nid : String)
    (s : RunState) :
    (markEdgesComplete edges nid s).nodeResponses = s.nodeResponses :=
  (markEdgesComplete_components edges nid s).2.2.2.2.2.1

@[simp]
theorem markEdgesComplete_genCalls_eq (edges : List Edge) (nid : String) (s : RunState) :
    (markEdgesComplete edges nid s).genCalls = s.genCalls :=
  (markEdgesComplete_components edges nid s).2.2.2.2.2.2.1

@[simp]
theorem markEdgesComplete_chooseCalls_eq (edges : List Edge) (nid : String) (s : RunState) :
    (markEdgesComplete edges nid s).chooseCalls = s.chooseCalls :=
  (markEdgesComplete_components edges nid s).2.2.2.2.2.2.2

theorem runBody_eq_skipped (gen : String → Option String)
    (choose : String → Option (String × String)) (nodes : List Node) (edges : List Edge)
    (node : Node) (s : RunState) (h : s.skippedNodes.contains node.id = true) :
    runBody gen choose nodes edges node s = resolveWith node.id none s := by
  simp only [runBody, h, if_true]

theorem runBody_eq_triggered (gen : String → Option String)
    (choose : String → Option (String × String)) (nodes : List Node) (edges : List Edge)
    (node : Node) (s : RunState) (h1 : s.skippedNodes.contains node.id = false)
    (h2 : chooseTriggered s (getIncomers node nodes edges) node.id = true) :
    runBody gen choose nodes edges node s =
      resolveWith node.id none
        (markSubtreeSkipped nodes edges (nodes.length + 1) node.id s) := by
  simp only [runBody, h1, h2, Bool.false_eq_true, if_false, if_true]

theorem runBody_eq_choose (gen : String → Option String)
    (choose : String → Option (String × String)) (nodes : List Node) (edges : List Edge)
    (node : Node) (s : RunState) (h1 : s.skippedNodes.contains node.id = false)
    (h2 : chooseTriggered s (getIncomers node nodes edges) node.id = false)
    (h3 : (node.data.executionMode == some "choose" && truthy node.data.conditionPrompt
        && decide ((getOutgoers node nodes edges).length > 1)) = true) :
    runBody gen choose nodes edges node s =
      chooseBody choose nodes edges node (publishNodeResponse node.id "" true s) := by
  simp only [runBody, h1, h2, h3, Bool.false_eq_true, if_false, if_true]

theorem runBody_eq_normal (gen : String → Option String)
    (choose : String → Option (String × String)) (nodes : List Node) (edges : List Edge)
    (node : Node) (s : RunState) (h1 : s.skippedNodes.contains node.id = false)
    (h2 : chooseTriggered s (getIncomers node nodes edges) node.id = false)
    (h3 : (node.data.executionMode == some "choose" && truthy node.data.conditionPrompt
        && decide ((getOutgoers node nodes edges).length > 1)) = false) :
    runBody gen choose nodes edges node s =
      normalBody gen nodes edges node (publishNodeResponse node.id "" true s) := by
  simp only [runBody, h1, h2, h3, Bool.false_eq_true, if_false]

theorem normalBody_resolved (gen : String → Option String) (nodes : List Node)
    (edges : List Edge) (node : Node) (s0 : RunState) :
    (normalBody gen nodes edges node s0).resolved = (node.id, gen node.id) :: s0.resolved := by
  unfold normalBody
  cases hg : gen node.id with
  | none => simp [resolveWith, publishNodeResponse]
  | some r => simp [resolveWith, publishNodeResponse]

theorem normalBody_quiet (gen : String → Option String) (nodes : List Node)
    (edges : List Edge) (node : Node) (s0 : RunState) :
    (normalBody gen nodes edges node s0).skippedNodes = s0.skippedNodes ∧
    (normalBody gen nodes edges node s0).selectedChildMap = s0.selectedChildMap ∧
    (normalBody gen nodes edges node s0).chooseCalls = s0.chooseCalls ∧
    (normalBody gen nodes edges node s0).selectionStates = s0.selectionStates := by
  unfold normalBody
  cases hg : gen node.id with
  | none => simp [resolveWith, publishNodeResponse]
  | some r => simp [resolveWith, publishNodeResponse]

/-- C2 counterexample: the branch-selection call for `P` returns (with a
success status) `selectedChildId = "bogus"`, outside the supplied children
`{A2, B2}`.  The decision node's unit of work does *not* fail: it resolves
with the synthetic response `"Selected: Unknown\n\nReason: r"`, publishes
that non-empty response, and marks *both* children (and `A2`'s subtree)
skipped — contradicting "recorded as empty/failed". -/
theorem bogus_selection_is_not_a_failure :
    bogusRun.resolved.lookup "P" = some (some "Selected: Unknown\n\nReason: r") ∧
    bogusRun.nodeResponses.lookup "P" = some ("Selected: Unknown\n\nReason: r", false) ∧
    bogusRun.skippedNodes.contains "A2" = true ∧
    bogusRun.skippedNodes.contains "B2" = true ∧
    bogusRun.skippedNodes.contains "D2" = true ∧
    some (("Selected: Unknown\n\nReason: r", false)) ≠ some ((("" : String), false)) := by
  decide

/-- C2 amended: when the branch-selection call succeeds but returns a
`selectedChildId` outside the supplied children's ids, the decision node's
unit of work does not fail — it resolves with the synthetic response
`"Selected: Unknown\n\nReason: <reasoning>"`, stores and publishes it with
`loading = false`, and marks every child (with its subtree) skipped, so in
particular no child is marked selected. -/
theorem out_of_set_selection_resolves_with_unknown
    (gen : String → Option String) (choose : String → Option (String × String))
    (nodes : List Node) (edges : List Edge) (node : Node) (s : RunState)
    (hskip : s.skippedNodes.contains node.id = false)
    (htrig : chooseTriggered s (getIncomers node nodes edges) node.id = false)
    (hmode : node.data.executionMode = some "choose")
    (hcond : truthy node.data.conditionPrompt = true)
    (hlen : 1 < (getOutgoers node nodes edges).length)
    (cid r : String) (hch : choose node.id = some (cid, r))
    (hout : ∀ c ∈ getOutgoers node nodes edges, c.id ≠ cid) :
    (runBody gen choose nodes edges node s).resolved.lookup node.id
        = some (some ("Selected: Unknown\n\nReason: " ++ r)) ∧
    (runBody gen choose nodes edges node s).responseMap.lookup node.id
        = some ("Selected: Unknown\n\nReason: " ++ r) ∧
    (runBody gen choose nodes edges node s).nodeResponses.lookup node.id
        = some ("Selected: Unknown\n\nReason: " ++ r, false) ∧
    (∀ c ∈ getOutgoers node nodes edges,
      c.id ∈ (runBody gen choose nodes edges node s).skippedNodes ∧
      (runBody gen choose nodes edges node s).selectionStates.lookup c.id
        = some "skipped") := by
  have hfind : (getOutgoers node nodes edges).find? (fun c => c.id == cid) = none :=
    List.find?_eq_none.mpr (fun c hc => by simpa using hout c hc)
  have hdec : decide ((getOutgoers node nodes edges).length > 1) = true :=
    decide_eq_true hlen
  have hstr : ("Selected: " ++ "Unknown") ++ "\n\nReason: " ++ r
      = "Selected: Unknown\n\nReason: " ++ r := rfl
  have hguard : ∀ (t : RunState), ∀ c ∈ getOutgoers node nodes edges,
      (if c.id != cid then markSubtreeSkipped nodes edges (nodes.length + 1) c.id t else t)
        = markSubtreeSkipped nodes edges (nodes.length + 1) c.id t := by
    intro t c hc
    simp [hout c hc]
  simp only [runBody, chooseBody, hskip, htrig, hmode, hcond, hdec, hch, hfind, Bool.false_eq_true,
    if_false, Option.some.injEq, beq_self_eq_true, Bool.and_self, Bool.true_and, if_true,
    childLabel]
  rw [List.foldl_ext _
    (fun (t : RunState) (c : Node) => markSubtreeSkipped nodes edges (nodes.length + 1) c.id t)
    _ (fun t c hc => hguard t c hc)]
  refine ⟨?_, ?_, ?_, ?_⟩
  · simp [resolveWith, List.lookup, hstr]
  · simp only [resolveWith]
    rw [foldl_proj (fun (u : RunState) => u.responseMap)
      (fun (t : RunState) (c : Node) => markSubtreeSkipped nodes edges (nodes.length + 1) c.id t)
      _ _ (fun t c => (mark_components nodes edges _ c.id t).2.1),
      (markNodeSelected_components edges cid _).2.1,
      (markEdgesComplete_components edges node.id _).2.1]
    simp [publishNodeResponse, List.lookup, hstr]
  · simp only [resolveWith]
    rw [foldl_proj (fun (u : RunState) => u.nodeResponses)
      (fun (t : RunState) (c : Node) => markSubtreeSkipped nodes edges (nodes.length + 1) c.id t)
      _ _ (fun t c => (mark_components nodes edges _ c.id t).2.2.2.1),
      (markNodeSelected_components edges cid _).2.2.2.2.1,
      (markEdgesComplete_components edges node.id _).2.2.2.2.2.1]
    simp [publishNodeResponse, List.lookup, hstr]
  · intro c hc
    constructor
    · show c.id ∈ (resolveWith _ _ _).skippedNodes
      simp only [resolveWith]
      rw [markFold_skipped_mem]
      exact Or.inr ⟨c, hc, self_mem_markedIds nodes edges nodes.length c.id⟩
    · show (resolveWith _ _ _).selectionStates.lookup c.id = some "skipped"
      simp only [resolveWith]
      rw [markFold_selection_lookup]
      rw [if_pos ⟨c, hc, self_mem_markedIds nodes edges nodes.length c.id⟩]

/-- Witness for C2's amended claim at the decision scenario: `P`'s
branch-selection call returns the out-of-set id `"bogus"`. -/
theorem out_of_set_selection_resolves_with_unknown_witness :
    (runBody okGen bogusChoose bogusNodes bogusEdges bogusParent
        emptyRunState).responseMap.lookup "P"
      = some ("Selected: Unknown\n\nReason: " ++ "r") ∧
    "A2" ∈ (runBody okGen bogusChoose bogusNodes bogusEdges bogusParent
        emptyRunState).skippedNodes := by
  have h := out_of_set_selection_resolves_with_unknown okGen bogusChoose bogusNodes
    bogusEdges bogusParent emptyRunState rfl rfl rfl rfl (by decide) "bogus" "r" rfl
    (by decide)
  refine ⟨h.2.1, ?_⟩
  exact (h.2.2.2 bogusChildA (by decide)).1

theorem chooseTriggered_of_empty (s : RunState) (deps : List Node) (nid : String)
    (h : s.selectedChildMap = []) : chooseTriggered s deps nid = false := by
  simp [chooseTriggered, h, List.lookup]

theorem runNodes_all_normal (gen : String → Option String)
    (choose : String → Option (String × String)) (nodes : List Node) (edges : List Edge) :
    ∀ (order : List Node) (s : RunState),
      s.skippedNodes = [] → s.selectedChildMap = [] →
      (∀ n ∈ order, (n.data.executionMode == some "choose" && truthy n.data.conditionPrompt
          && decide ((getOutgoers n nodes edges).length > 1)) = false) →
      (runNodes gen choose nodes edges order s).skippedNodes = [] ∧
      (runNodes gen choose nodes edges order s).selectedChildMap = [] ∧
      (runNodes gen choose nodes edges order s).chooseCalls = s.chooseCalls ∧
      (runNodes gen choose nodes edges order s).resolved =
        (order.reverse.map (fun n => (n.id, gen n.id))) ++ s.resolved := by
  intro order
  induction order with
  | nil =>
    intro s h1 h2 h3
    exact ⟨h1, h2, rfl, by simp [runNodes]⟩
  | cons n rest ih =>
    intro s h1 h2 h3
    have hskip : s.skippedNodes.contains n.id = false := by simp [h1]
    have htrig : chooseTriggered s (getIncomers n nodes edges) n.id = false :=
      chooseTriggered_of_empty s _ _ h2
    have hbody : runBody gen choose nodes edges n s =
        normalBody gen nodes edges n (publishNodeResponse n.id "" true s) :=
      runBody_eq_normal gen choose nodes edges n s hskip htrig
        (h3 n (List.mem_cons_self _ _))
    have hq := normalBody_quiet gen nodes edges n (publishNodeResponse n.id "" true s)
    have hr := normalBody_resolved gen nodes edges n (publishNodeResponse n.id "" true s)
    simp only [runNodes, List.foldl_cons] at *
    have ihr := ih (runBody gen choose nodes edges n s)
      (by rw [hbody]; rw [hq.1]; simpa [publishNodeResponse] using h1)
      (by rw [hbody]; rw [hq.2.1]; simpa [publishNodeResponse] using h2)
      (fun m hm => h3 m (List.mem_cons_of_mem _ hm))
    refine ⟨ihr.1, ihr.2.1, ?_, ?_⟩
    · rw [ihr.2.2.1, hbody, hq.2.2.1]
      simp [publishNodeResponse]
    · rw [ihr.2.2.2, hbody, hr]
      simp [publishNodeResponse, List.append_assoc]

theorem lookup_map_gen_of_nodup (gen : String → Option String) :
    ∀ (l : List Node), (l.map (fun n => n.id)).Nodup →
      ∀ n ∈ l, (l.map (fun n => (n.id, gen n.id))).lookup n.id = some (gen n.id) := by
  intro l
  induction l with
  | nil => intro _ n hn; cases hn
  | cons a t ih =>
    intro hnd n hn
    rw [List.map_cons, List.nodup_cons] at hnd
    rcases List.mem_cons.mp hn with rfl | hn
    · simp [List.lookup]
    · have hne : (n.id == a.id) = false := by
        have : n.id ∈ t.map (fun n => n.id) := List.mem_map.mpr ⟨n, hn, rfl⟩
        simp only [beq_eq_false_iff_ne, ne_eq]
        intro heq
        exact hnd.1 (heq ▸ this)
      simpa [List.lookup, hne] using ih hnd.2 n hn

theorem allMode_cond_false (nodes : List Node) (edges : List Edge) (node : Node) :
    ((allMode node).data.executionMode == some "choose"
      && truthy (allMode node).data.conditionPrompt
      && decide ((getOutgoers (allMode node) nodes edges).length > 1)) = false := by
  simp [allMode]

/-- C7: branch selection is invoked exactly when the node is in choose mode
with a non-empty condition prompt and more than one outgoer (first
conjunct: the call log gains an entry iff that condition holds); a choose
node with at most one child behaves exactly as the same node in `All` mode
(second conjunct); and in a run whose choose nodes all have at most one
child, nothing is skipped, branch selection is never invoked, and every
node — in particular the single child of such a choose node — resolves
unconditionally with its generation result (third conjunct). -/
theorem branch_selection_invocation_iff (gen : String → Option String)
    (choose : String → Option (String × String)) (nodes : List Node) (edges : List Edge) :
    (∀ (node : Node) (s : RunState),
      s.skippedNodes.contains node.id = false →
      chooseTriggered s (getIncomers node nodes edges) node.id = false →
      (runBody gen choose nodes edges node s).chooseCalls =
        (if node.data.executionMode == some "choose" && truthy node.data.conditionPrompt
            && decide ((getOutgoers node nodes edges).length > 1)
         then (node.id, nodeMessages node nodes edges) :: s.chooseCalls
         else s.chooseCalls)) ∧
    (∀ (node : Node) (s : RunState), (getOutgoers node nodes edges).length ≤ 1 →
      runBody gen choose nodes edges node s = runBody gen choose nodes edges (allMode node) s) ∧
    (∀ (order : List Node),
      (∀ n ∈ order, n.data.executionMode = some "choose" →
        (getOutgoers n nodes edges).length ≤ 1) →
      (order.map (fun n => n.id)).Nodup →
      (runFlow gen choose nodes edges order).skippedNodes = [] ∧
      (runFlow gen choose nodes edges order).chooseCalls = [] ∧
      ∀ n ∈ order, (runFlow gen choose nodes edges order).resolved.lookup n.id
        = some (gen n.id)) := by
  refine ⟨?_, ?_, ?_⟩
  · intro node s hskip htrig
    by_cases hc : (node.data.executionMode == some "choose" && truthy node.data.conditionPrompt
        && decide ((getOutgoers node nodes edges).length > 1)) = true
    · rw [runBody_eq_choose gen choose nodes edges node s hskip htrig hc, if_pos hc]
      unfold chooseBody
      cases hch : choose node.id with
      | none => simp [resolveWith, publishNodeResponse]
      | some pr =>
        obtain ⟨cid, r⟩ := pr
        simp only [resolveWith]
        rw [foldl_proj (fun (u : RunState) => u.chooseCalls)
          (fun (t : RunState) (c : Node) =>
            if c.id != cid then markSubtreeSkipped nodes edges (nodes.length + 1) c.id t else t)
          _ _ (fun t c => by by_cases h : (c.id != cid) = true <;> simp [h])]
        simp [publishNodeResponse]
    · rw [runBody_eq_normal gen choose nodes edges node s hskip htrig
        (Bool.not_eq_true _ ▸ (by simpa using hc)), if_neg hc]
      exact (normalBody_quiet gen nodes edges node _).2.2.1.trans (by simp [publishNodeResponse])
  · intro node s hlen
    have hcondN : (node.data.executionMode == some "choose" && truthy node.data.conditionPrompt
        && decide ((getOutgoers node nodes edges).length > 1)) = false := by
      have : decide ((getOutgoers node nodes edges).length > 1) = false :=
        decide_eq_false (Nat.not_lt.mpr hlen)
      rw [this, Bool.and_false]
    by_cases h1 : s.skippedNodes.contains node.id = true
    · rw [runBody_eq_skipped gen choose nodes edges node s h1,
        runBody_eq_skipped gen choose nodes edges (allMode node) s h1]
      rfl
    · have h1' : s.skippedNodes.contains node.id = false := by
        simpa using h1
      by_cases h2 : chooseTriggered s (getIncomers node nodes edges) node.id = true
      · rw [runBody_eq_triggered gen choose nodes edges node s h1' h2,
          runBody_eq_triggered gen choose nodes edges (allMode node) s h1' h2]
        rfl
      · have h2' : chooseTriggered s (getIncomers node nodes edges) node.id = false := by
          simpa using h2
        rw [runBody_eq_normal gen choose nodes edges node s h1' h2' hcondN,
          runBody_eq_normal gen choose nodes edges (allMode node) s h1' h2'
            (allMode_cond_false nodes edges node)]
        rfl
  · intro order hord hnd
    have hcond : ∀ n ∈ order, (n.data.executionMode == some "choose"
        && truthy n.data.conditionPrompt
        && decide ((getOutgoers n nodes edges).length > 1)) = false := by
      intro n hn
      by_cases hm : n.data.executionMode = some "choose"
      · have : decide ((getOutgoers n nodes edges).length > 1) = false :=
          decide_eq_false (Nat.not_lt.mpr (hord n hn hm))
        rw [this, Bool.and_false]
      · have : (n.data.executionMode == some "choose") = false := by
          simpa using hm
        rw [this, Bool.false_and, Bool.false_and]
    have h := runNodes_all_normal gen choose nodes edges order emptyRunState rfl rfl hcond
    refine ⟨h.1, h.2.2.1, ?_⟩
    intro n hn
    have hres := h.2.2.2
    rw [runFlow] at *
    rw [hres]
    have hnd' : (order.reverse.map (fun n => n.id)).Nodup := by
      rw [List.map_reverse, List.nodup_reverse]
      exact hnd
    have := lookup_map_gen_of_nodup gen order.reverse hnd' n (List.mem_reverse.mpr hn)
    simpa [emptyRunState] using this

/-- Witness for C7 at a two-node chain (`X → Y`, no choose nodes): nothing
is skipped, branch selection is never invoked, and both nodes resolve with
their generation results. -/
theorem branch_selection_invocation_iff_witness :
    (runFlow staleGen noChoose staleNodes staleEdges [staleNodeX, staleNodeY]).skippedNodes
      = [] ∧
    (runFlow staleGen noChoose staleNodes staleEdges [staleNodeX, staleNodeY]).chooseCalls
      = [] ∧
    (runFlow staleGen noChoose staleNodes staleEdges
      [staleNodeX, staleNodeY]).resolved.lookup "Y" = some (staleGen "Y") := by
  have h := (branch_selection_invocation_iff staleGen noChoose staleNodes staleEdges).2.2
    [staleNodeX, staleNodeY] (by decide) (by decide)
  exact ⟨h.1, h.2.1, h.2.2 staleNodeY (by decide)⟩

theorem find?_id_of_nodup (nodes : List Node)
    (hnd : (nodes.map (fun n => n.id)).Nodup) (p : Node) (hp : p ∈ nodes) :
    nodes.find? (fun n => n.id == p.id) = some p := by
  induction nodes with
  | nil => cases hp
  | cons a t ih =>
    rw [List.map_cons, List.nodup_cons] at hnd
    rcases List.mem_cons.mp hp with rfl | hp
    · simp [List.find?]
    · have hne : (a.id == p.id) = false := by
        simp only [beq_eq_false_iff_ne, ne_eq]
        intro heq
        exact hnd.1 (heq ▸ List.mem_map.mpr ⟨p, hp, rfl⟩)
      simpa [List.find?, hne] using ih hnd.2 hp

theorem dedupFirstAux_nodup : ∀ (l seen : List String), (dedupFirstAux seen l).Nodup := by
  intro l
  induction l with
  | nil => intro seen; simp [dedupFirstAux]
  | cons x xs ih =>
    intro seen
    by_cases hx : seen.contains x = true
    · rw [dedupFirstAux, if_pos hx]
      exact ih seen
    · rw [dedupFirstAux, if_neg hx]
      refine List.nodup_cons.mpr ⟨?_, ih (x :: seen)⟩
      intro hmem
      exact ((dedupFirstAux_mem x xs (x :: seen)).mp hmem).2 (List.mem_cons_self _ _)

theorem filterMap_keep_sublist {α : Type} (h : α → Option α) (hid : ∀ a, h a = none ∨ h a = some a) :
    ∀ (l : List α), (l.filterMap h).Sublist l := by
  intro l
  induction l with
  | nil => simp
  | cons a t ih =>
    rcases hid a with ha | ha
    · rw [List.filterMap_cons, ha]
      exact ih.cons a
    · rw [List.filterMap_cons, ha]
      exact ih.cons₂ a

theorem outgoers_ids_nodup (node : Node) (nodes : List Node) (edges : List Edge) :
    ((getOutgoers node nodes edges).map (fun n => n.id)).Nodup := by
  rw [getOutgoers, List.map_filterMap]
  have hpt : ∀ tid : String,
      ((nodes.find? (fun n => n.id == tid)).map (fun n => n.id) : Option String) = none ∨
      ((nodes.find? (fun n => n.id == tid)).map (fun n => n.id) : Option String) = some tid := by
    intro tid
    cases hf : nodes.find? (fun n => n.id == tid) with
    | none => exact Or.inl rfl
    | some n =>
      refine Or.inr ?_
      have : n.id = tid := by simpa using List.find?_some hf
      simp [this]
  have hsub := filterMap_keep_sublist
    (fun tid => (nodes.find? (fun n => n.id == tid)).map (fun n => n.id)) hpt
    (dedupFirst ((edges.filter (fun e => e.source == node.id)).map (fun e => e.target)))
  exact List.Nodup.sublist hsub (dedupFirstAux_nodup _ [])

theorem mem_getIncomers_elim (nodes : List Node) (edges : List Edge) {m p : Node}
    (hp : p ∈ getIncomers m nodes edges) :
    p ∈ nodes ∧ ∃ e ∈ edges, e.source = p.id ∧ e.target = m.id := by
  rw [getIncomers, List.mem_filterMap] at hp
  obtain ⟨sid, hsid, hfind⟩ := hp
  have hid : p.id = sid := by simpa using List.find?_some hfind
  have hmem : p ∈ nodes := List.mem_of_find?_eq_some hfind
  rw [dedupFirst_mem, List.mem_map] at hsid
  obtain ⟨e, he, hsrc⟩ := hsid
  rw [List.mem_filter] at he
  have htgt : e.target = m.id := by simpa using he.2
  exact ⟨hmem, e, he.1, by rw [hsrc, hid], htgt⟩

theorem mem_getOutgoers_elim (nodes : List Node) (edges : List Edge) {m c : Node}
    (hc : c ∈ getOutgoers m nodes edges) :
    c ∈ nodes ∧ ∃ e ∈ edges, e.source = m.id ∧ e.target = c.id := by
  rw [getOutgoers, List.mem_filterMap] at hc
  obtain ⟨tid, htid, hfind⟩ := hc
  have hid : c.id = tid := by simpa using List.find?_some hfind
  have hmem : c ∈ nodes := List.mem_of_find?_eq_some hfind
  rw [dedupFirst_mem, List.mem_map] at htid
  obtain ⟨e, he, htgt⟩ := htid
  rw [List.mem_filter] at he
  have hsrc : e.source = m.id := by simpa using he.2
  exact ⟨hmem, e, he.1, hsrc, by rw [htgt, hid]⟩

theorem mem_getOutgoers_intro (nodes : List Node) (edges : List Edge)
    (hnd : (nodes.map (fun n => n.id)).Nodup) {m c : Node} (hc : c ∈ nodes)
    (e : Edge) (he : e ∈ edges) (hsrc : e.source = m.id) (htgt : e.target = c.id) :
    c ∈ getOutgoers m nodes edges := by
  rw [getOutgoers, List.mem_filterMap]
  refine ⟨c.id, ?_, find?_id_of_nodup nodes hnd c hc⟩
  rw [dedupFirst_mem, List.mem_map]
  refine ⟨e, ?_, htgt⟩
  rw [List.mem_filter]
  exact ⟨he, by simp [hsrc]⟩

theorem mem_getIncomers_intro (nodes : List Node) (edges : List Edge)
    (hnd : (nodes.map (fun n => n.id)).Nodup) {m p : Node} (hp : p ∈ nodes)
    (e : Edge) (he : e ∈ edges) (hsrc : e.source = p.id) (htgt : e.target = m.id) :
    p ∈ getIncomers m nodes edges := by
  rw [getIncomers, List.mem_filterMap]
  refine ⟨p.id, ?_, find?_id_of_nodup nodes hnd p hp⟩
  rw [dedupFirst_mem, List.mem_map]
  refine ⟨e, ?_, hsrc⟩
  rw [List.mem_filter]
  exact ⟨he, by simp [htgt]⟩

theorem lookup_cons_ne {β : Type} (k a : String) (v : β) (l : List (String × β))
    (h : (k == a) = false) : ((a, v) :: l).lookup k = l.lookup k := by
  simp [List.lookup, h]

theorem normalBody_lookup_frame (gen : String → Option String) (nodes : List Node)
    (edges : List Edge) (m : Node) (s0 : RunState) (k : String)
    (hk : (k == m.id) = false) :
    (normalBody gen nodes edges m s0).resolved.lookup k = s0.resolved.lookup k ∧
    (normalBody gen nodes edges m s0).responseMap.lookup k = s0.responseMap.lookup k ∧
    (normalBody gen nodes edges m s0).nodeResponses.lookup k = s0.nodeResponses.lookup k := by
  unfold normalBody
  cases hg : gen m.id with
  | none => simp [resolveWith, publishNodeResponse, List.lookup, hk]
  | some r => simp [resolveWith, publishNodeResponse, List.lookup, hk]

theorem chooseTriggered_false_of (s : RunState) (deps : List Node) (nid Pid Bid : String)
    (hsc : s.selectedChildMap = [(Pid, Bid)])
    (h : (∀ p ∈ deps, (p.data.executionMode == some "choose") = false ∨ p.id ≠ Pid) ∨
      nid = Bid) :
    chooseTriggered s deps nid = false := by
  rw [chooseTriggered, List.any_eq_false]
  intro p hp
  rw [hsc]
  rcases h with h | h
  · rcases h p hp with hm | hm
    · simp [hm]
    · have hne : (p.id == Pid) = false := by simpa using hm
      simp [List.lookup, hne]
  · subst h
    by_cases hpp : (p.id == Pid) = true
    · simp [List.lookup, hpp]
    · simp only [Bool.not_eq_true] at hpp
      simp [List.lookup, hpp]

theorem runNodes_post_frame (gen : String → Option String)
    (choose : String → Option (String × String)) (nodes : List Node) (edges : List Edge)
    (Pid Bid : String) :
    ∀ (post : List Node) (s : RunState),
      s.selectedChildMap = [(Pid, Bid)] →
      (∀ m ∈ post, (m.data.executionMode == some "choose") = false ∧
        (m.id ∈ s.skippedNodes ∨
          (∀ p ∈ getIncomers m nodes edges,
            (p.data.executionMode == some "choose") = false ∨ p.id ≠ Pid) ∨
          m.id = Bid)) →
      (runNodes gen choose nodes edges post s).skippedNodes = s.skippedNodes ∧
      (runNodes gen choose nodes edges post s).selectionStates = s.selectionStates ∧
      (runNodes gen choose nodes edges post s).selectedChildMap = s.selectedChildMap ∧
      (∀ k : String, (∀ m ∈ post, (k == m.id) = false) →
        (runNodes gen choose nodes edges post s).resolved.lookup k = s.resolved.lookup k ∧
        (runNodes gen choose nodes edges post s).responseMap.lookup k
          = s.responseMap.lookup k ∧
        (runNodes gen choose nodes edges post s).nodeResponses.lookup k
          = s.nodeResponses.lookup k) := by
  intro post
  induction post with
  | nil =>
    intro s hsc hyp
    exact ⟨rfl, rfl, rfl, fun k _ => ⟨rfl, rfl, rfl⟩⟩
  | cons m rest ih =>
    intro s hsc hyp
    obtain ⟨hmode, hdisj⟩ := hyp m (List.mem_cons_self _ _)
    simp only [runNodes, List.foldl_cons] at *
    by_cases hK : s.skippedNodes.contains m.id = true
    · have hbody : runBody gen choose nodes edges m s = resolveWith m.id none s :=
        runBody_eq_skipped gen choose nodes edges m s hK
      have hsc' : (runBody gen choose nodes edges m s).selectedChildMap = [(Pid, Bid)] := by
        rw [hbody]; exact hsc
      have hsk' : (runBody gen choose nodes edges m s).skippedNodes = s.skippedNodes := by
        rw [hbody]; rfl
      have ihr := ih (runBody gen choose nodes edges m s) hsc'
        (fun m' hm' => ⟨(hyp m' (List.mem_cons_of_mem _ hm')).1, by
          rw [hsk']; exact (hyp m' (List.mem_cons_of_mem _ hm')).2⟩)
      refine ⟨ihr.1.trans hsk', ihr.2.1.trans (by rw [hbody]; rfl),
        ihr.2.2.1.trans (hsc'.trans hsc.symm), ?_⟩
      intro k hk
      have h1 := ihr.2.2.2 k (fun m' hm' => hk m' (List.mem_cons_of_mem _ hm'))
      have hkm := hk m (List.mem_cons_self _ _)
      refine ⟨h1.1.trans ?_, h1.2.1.trans ?_, h1.2.2.trans ?_⟩
      · rw [hbody, resolveWith]
        exact lookup_cons_ne k m.id none s.resolved hkm
      · rw [hbody]
        rfl
      · rw [hbody]
        rfl
    · have hK' : s.skippedNodes.contains m.id = false := by simpa using hK
      have hKmem : m.id ∉ s.skippedNodes := by
        intro hmem
        rw [(contains_iff_mem _ _).mpr hmem] at hK'
        cases hK'
      have htrig : chooseTriggered s (getIncomers m nodes edges) m.id = false := by
        refine chooseTriggered_false_of s _ _ Pid Bid hsc ?_
        rcases hdisj with h | h | h
        · exact absurd h hKmem
        · exact Or.inl h
        · exact Or.inr h
      have hcond : (m.data.executionMode == some "choose" && truthy m.data.conditionPrompt
          && decide ((getOutgoers m nodes edges).length > 1)) = false := by
        rw [hmode, Bool.false_and, Bool.false_and]
      have hbody : runBody gen choose nodes edges m s =
          normalBody gen nodes edges m (publishNodeResponse m.id "" true s) :=
        runBody_eq_normal gen choose nodes edges m s hK' htrig hcond
      have hq := normalBody_quiet gen nodes edges m (publishNodeResponse m.id "" true s)
      have hsk' : (runBody gen choose nodes edges m s).skippedNodes = s.skippedNodes := by
        rw [hbody, hq.1]; rfl
      have hss' : (runBody gen choose nodes edges m s).selectionStates = s.selectionStates := by
        rw [hbody, hq.2.2.2]; rfl
      have hsc' : (runBody gen choose nodes edges m s).selectedChildMap = [(Pid, Bid)] := by
        rw [hbody, hq.2.1]; exact hsc
      have ihr := ih (runBody gen choose nodes edges m s) hsc'
        (fun m' hm' => ⟨(hyp m' (List.mem_cons_of_mem _ hm')).1, by
          rw [hsk']; exact (hyp m' (List.mem_cons_of_mem _ hm')).2⟩)
      refine ⟨ihr.1.trans hsk', ihr.2.1.trans hss',
        ihr.2.2.1.trans (hsc'.trans hsc.symm), ?_⟩
      intro k hk
      have h1 := ihr.2.2.2 k (fun m' hm' => hk m' (List.mem_cons_of_mem _ hm'))
      have hkm := hk m (List.mem_cons_self _ _)
      have hfr := normalBody_lookup_frame gen nodes edges m
        (publishNodeResponse m.id "" true s) k hkm
      refine ⟨h1.1.trans ?_, h1.2.1.trans ?_, h1.2.2.trans ?_⟩
      · rw [hbody, hfr.1]; rfl
      · rw [hbody, hfr.2.1]; rfl
      · rw [hbody, hfr.2.2, publishNodeResponse]
        exact lookup_cons_ne k m.id ("", true) s.nodeResponses hkm

@[simp]
theorem resolveWith_resolved (nid : String) (v : Option String) (s : RunState) :
    (resolveWith nid v s).resolved = (nid, v) :: s.resolved := rfl

@[simp]
theorem resolveWith_responseMap (nid : String) (v : Option String) (s : RunState) :
    (resolveWith nid v s).responseMap = s.responseMap := rfl

@[simp]
theorem resolveWith_selectedChildMap (nid : String) (v : Option String) (s : RunState) :
    (resolveWith nid v s).selectedChildMap = s.selectedChildMap := rfl

@[simp]
theorem resolveWith_skippedNodes (nid : String) (v : Option String) (s : RunState) :
    (resolveWith nid v s).skippedNodes = s.skippedNodes := rfl

@[simp]
theorem resolveWith_selectionStates (nid : String) (v : Option String) (s : RunState) :
    (resolveWith nid v s).selectionStates = s.selectionStates := rfl

@[simp]
theorem resolveWith_nodeResponses (nid : String) (v : Option String) (s : RunState) :
    (resolveWith nid v s).nodeResponses = s.nodeResponses := rfl

@[simp]
theorem resolveWith_genCalls (nid : String) (v : Option String) (s : RunState) :
    (resolveWith nid v s).genCalls = s.genCalls := rfl

@[simp]
theorem resolveWith_chooseCalls (nid : String) (v : Option String) (s : RunState) :
    (resolveWith nid v s).chooseCalls = s.chooseCalls := rfl

@[simp]
theorem publish_nodeResponses (nid resp : String) (b : Bool) (s : RunState) :
    (publishNodeResponse nid resp b s).nodeResponses = (nid, (resp, b)) :: s.nodeResponses :=
  rfl

@[simp]
theorem publish_resolved (nid resp : String) (b : Bool) (s : RunState) :
    (publishNodeResponse nid resp b s).resolved = s.resolved := rfl

@[simp]
theorem publish_responseMap (nid resp : String) (b : Bool) (s : RunState) :
    (publishNodeResponse nid resp b s).responseMap = s.responseMap := rfl

@[simp]
theorem publish_selectedChildMap (nid resp : String) (b : Bool) (s : RunState) :
    (publishNodeResponse nid resp b s).selectedChildMap = s.selectedChildMap := rfl

@[simp]
theorem publish_skippedNodes (nid resp : String) (b : Bool) (s : RunState) :
    (publishNodeResponse nid resp b s).skippedNodes = s.skippedNodes := rfl

@[simp]
theorem publish_selectionStates (nid resp : String) (b : Bool) (s : RunState) :
    (publishNodeResponse nid resp b s).selectionStates = s.selectionStates := rfl

@[simp]
theorem publish_genCalls (nid resp : String) (b : Bool) (s : RunState) :
    (publishNodeResponse nid resp b s).genCalls = s.genCalls := rfl

@[simp]
theorem publish_chooseCalls (nid resp : String) (b : Bool) (s : RunState) :
    (publishNodeResponse nid resp b s).chooseCalls = s.chooseCalls := rfl

theorem contains_eq_false_of_not_mem {l : List String} {x : String} (h : x ∉ l) :
    l.contains x = false := by
  cases hc : l.contains x with
  | false => rfl
  | true => exact absurd ((contains_iff_mem _ _).mp hc) h

theorem normalBody_responseMap_some (gen : String → Option String) (nodes : List Node)
    (edges : List Edge) (m : Node) (s0 : RunState) (t : String) (hg : gen m.id = some t) :
    (normalBody gen nodes edges m s0).responseMap = (m.id, t) :: s0.responseMap := by
  unfold normalBody
  rw [hg]
  simp [resolveWith, publishNodeResponse]

theorem chooseBody_valid_eq (choose : String → Option (String × String))
    (nodes : List Node) (edges : List Edge) (P A B C : Node) (s0 : RunState) (r : String)
    (hchildren : getOutgoers P nodes edges = [A, B, C])
    (hch : choose P.id = some (B.id, r))
    (hAB : (A.id != B.id) = true) (hBB : (B.id != B.id) = false)
    (hCB : (C.id != B.id) = true)
    (hfind : [A, B, C].find? (fun c => c.id == B.id) = some B) :
    chooseBody choose nodes edges P s0 =
      resolveWith P.id (some ("Selected: " ++ childLabel B ++ "\n\nReason: " ++ r))
        (markSubtreeSkipped nodes edges (nodes.length + 1) C.id
          (markSubtreeSkipped nodes edges (nodes.length + 1) A.id
            (markNodeSelected edges B.id
              (markEdgesComplete edges P.id
                (publishNodeResponse P.id
                  ("Selected: " ++ childLabel B ++ "\n\nReason: " ++ r) false
                  { s0 with
                    chooseCalls := (P.id, nodeMessages P nodes edges) :: s0.chooseCalls,
                    selectedChildMap := (P.id, B.id) :: s0.selectedChildMap,
                    responseMap :=
                      (P.id, "Selected: " ++ childLabel B ++ "\n\nReason: " ++ r)
                        :: s0.responseMap }))))) := by
  unfold chooseBody
  simp only [hchildren, hch, hfind]
  simp only [List.foldl_cons, List.foldl_nil, hAB, hBB, hCB, Bool.false_eq_true,
    if_true, if_false]

/-- C4: in a run over a topologically ordered DAG whose only decision node
is `P`, with children `[A, B, C]` and a branch-selection result
`selectedChildId = B.id` (with reasoning `r`): `B` is marked selected and
its body runs to completion (it resolves with its generated text `t`);
`A`, `C` and their entire reachable descendant sets end up in the skipped
set with selection state `"skipped"`; and `P`'s stored response is
`"Selected: <B's label>\n\nReason: <r>"`. -/
theorem decision_node_selection_and_skip_run
    (gen : String → Option String) (choose : String → Option (String × String))
    (nodes : List Node) (edges : List Edge) (order : List Node)
    (P A B C : Node) (r t : String)
    (hnodes : (nodes.map (fun n => n.id)).Nodup)
    (horder : isTopoOrder nodes edges order)
    (honly : ∀ n ∈ nodes, n.data.executionMode = some "choose" → n = P)
    (hPmem : P ∈ nodes)
    (hmode : P.data.executionMode = some "choose")
    (hcond : truthy P.data.conditionPrompt = true)
    (hchildren : getOutgoers P nodes edges = [A, B, C])
    (hch : choose P.id = some (B.id, r))
    (hBA : ¬ reaches nodes edges A.id B.id)
    (hBC : ¬ reaches nodes edges C.id B.id)
    (hgenB : gen B.id = some t) :
    (runFlow gen choose nodes edges order).selectionStates.lookup B.id = some "selected" ∧
    (runFlow gen choose nodes edges order).resolved.lookup B.id = some (some t) ∧
    (runFlow gen choose nodes edges order).responseMap.lookup B.id = some t ∧
    (∀ x, reaches nodes edges A.id x ∨ reaches nodes edges C.id x →
      x ∈ (runFlow gen choose nodes edges order).skippedNodes ∧
      (runFlow gen choose nodes edges order).selectionStates.lookup x = some "skipped") ∧
    (runFlow gen choose nodes edges order).responseMap.lookup P.id
      = some ("Selected: " ++ childLabel B ++ "\n\nReason: " ++ r) := by
  obtain ⟨hperm, hpair, hself⟩ := horder
  have hOrderIds : (order.map (fun n => n.id)).Nodup :=
    (List.Perm.nodup_iff (hperm.map (fun n => n.id))).mpr hnodes
  have hAout : A ∈ getOutgoers P nodes edges := by rw [hchildren]; simp
  have hBout : B ∈ getOutgoers P nodes edges := by rw [hchildren]; simp
  have hCout : C ∈ getOutgoers P nodes edges := by rw [hchildren]; simp
  obtain ⟨hAmem, eA, heA, hsA, htA⟩ := mem_getOutgoers_elim nodes edges hAout
  obtain ⟨hBmem, eB, heB, hsB, htB⟩ := mem_getOutgoers_elim nodes edges hBout
  obtain ⟨hCmem, eC, heC, hsC, htC⟩ := mem_getOutgoers_elim nodes edges hCout
  have hkidsnd := outgoers_ids_nodup P nodes edges
  rw [hchildren] at hkidsnd
  simp only [List.map_cons, List.map_nil, List.nodup_cons, List.mem_cons,
    List.not_mem_nil, or_false, List.mem_singleton, not_or, List.nodup_nil,
    and_true] at hkidsnd
  obtain ⟨⟨hABne, hACne⟩, hBCne0⟩ := hkidsnd
  have hBCne : B.id ≠ C.id := hBCne0.1
  have hPmemO : P ∈ order := hperm.mem_iff.mpr hPmem
  have hBP : B.id ≠ P.id := by
    intro he
    have hPP : P ∈ getIncomers P nodes edges :=
      mem_getIncomers_intro nodes edges hnodes hPmem eB heB hsB (by rw [htB, he])
    exact hself P hPmemO hPP
  obtain ⟨pre, post, horderEq⟩ := List.append_of_mem hPmemO
  have hPincB : P ∈ getIncomers B nodes edges :=
    mem_getIncomers_intro nodes edges hnodes hPmem eB heB hsB htB
  have hBmemO : B ∈ order := hperm.mem_iff.mpr hBmem
  have hBpost : B ∈ post := by
    have hBmemO2 := hBmemO
    rw [horderEq] at hBmemO2
    rcases List.mem_append.mp hBmemO2 with hBpre | hBp
    · have hpair2 := hpair
      rw [horderEq] at hpair2
      have := (List.pairwise_append.mp hpair2).2.2 B hBpre P (List.mem_cons_self _ _)
      exact absurd hPincB this
    · rcases List.mem_cons.mp hBp with heq | h
      · exact absurd (by rw [heq]) hBP
      · exact h
  obtain ⟨post₁, post₂, hpostEq⟩ := List.append_of_mem hBpost
  have hids0 : ((pre.map (fun n => n.id)) ++ P.id ::
      ((post₁.map (fun n => n.id)) ++ B.id :: (post₂.map (fun n => n.id)))).Nodup := by
    have h := hOrderIds
    rw [horderEq, hpostEq] at h
    simpa using h
  rw [List.nodup_append] at hids0
  obtain ⟨hndpre, hndrest, hdisj1⟩ := hids0
  rw [List.nodup_cons] at hndrest
  obtain ⟨hPnotin, hndrest2⟩ := hndrest
  rw [List.nodup_append] at hndrest2
  obtain ⟨hnd1, hndB2, hdisj2⟩ := hndrest2
  rw [List.nodup_cons] at hndB2
  obtain ⟨hBnotin2, -⟩ := hndB2
  have hPpre : ∀ n ∈ pre, n.id ≠ P.id := by
    intro n hn he
    exact hdisj1 (List.mem_map.mpr ⟨n, hn, rfl⟩) (he ▸ List.mem_cons_self _ _)
  have hPneq₁ : ∀ m ∈ post₁, (P.id == m.id) = false := by
    intro m hm
    simp only [beq_eq_false_iff_ne, ne_eq]
    intro he
    exact hPnotin (List.mem_append.mpr (Or.inl (he ▸ List.mem_map.mpr ⟨m, hm, rfl⟩)))
  have hPneq₂ : ∀ m ∈ post₂, (P.id == m.id) = false := by
    intro m hm
    simp only [beq_eq_false_iff_ne, ne_eq]
    intro he
    exact hPnotin (List.mem_append.mpr (Or.inr (List.mem_cons_of_mem _
      (he ▸ List.mem_map.mpr ⟨m, hm, rfl⟩))))
  have hBneq₂ : ∀ m ∈ post₂, (B.id == m.id) = false := by
    intro m hm
    simp only [beq_eq_false_iff_ne, ne_eq]
    intro he
    exact hBnotin2 (he ▸ List.mem_map.mpr ⟨m, hm, rfl⟩)
  have hPostP : ∀ m, m ∈ post₁ ∨ m ∈ post₂ → m.id ≠ P.id := by
    intro m hm he
    rcases hm with hm | hm
    · exact hPnotin (List.mem_append.mpr (Or.inl (he ▸ List.mem_map.mpr ⟨m, hm, rfl⟩)))
    · exact hPnotin (List.mem_append.mpr (Or.inr (List.mem_cons_of_mem _
        (he ▸ List.mem_map.mpr ⟨m, hm, rfl⟩))))
  -- Phase 1: everything before P takes the normal path.
  have hcondpre : ∀ n ∈ pre, (n.data.executionMode == some "choose"
      && truthy n.data.conditionPrompt
      && decide ((getOutgoers n nodes edges).length > 1)) = false := by
    intro n hn
    have hnO : n ∈ order := by
      rw [horderEq]
      exact List.mem_append.mpr (Or.inl hn)
    have hnN : n ∈ nodes := hperm.mem_iff.mp hnO
    have hne : n.data.executionMode ≠ some "choose" := by
      intro hm
      exact hPpre n hn (by rw [honly n hnN hm])
    have hne' : (n.data.executionMode == some "choose") = false := by
      simpa [beq_eq_false_iff_ne] using hne
    rw [hne', Bool.false_and, Bool.false_and]
  have h1 := runNodes_all_normal gen choose nodes edges pre emptyRunState rfl rfl hcondpre
  -- Phase 2: P's body.
  have hskipP : (runNodes gen choose nodes edges pre emptyRunState).skippedNodes.contains P.id
      = false := by rw [h1.1]; rfl
  have htrigP := chooseTriggered_of_empty (runNodes gen choose nodes edges pre emptyRunState)
    (getIncomers P nodes edges) P.id h1.2.1
  have hlen3 : (getOutgoers P nodes edges).length = 3 := by rw [hchildren]; rfl
  have hcondP : (P.data.executionMode == some "choose" && truthy P.data.conditionPrompt
      && decide ((getOutgoers P nodes edges).length > 1)) = true := by
    rw [hmode, hcond, hlen3]
    rfl
  have hPbody := runBody_eq_choose gen choose nodes edges P
    (runNodes gen choose nodes edges pre emptyRunState) hskipP htrigP hcondP
  have hAB2 : (A.id != B.id) = true := by simpa using hABne
  have hBB2 : (B.id != B.id) = false := by simp
  have hCB2 : (C.id != B.id) = true := by simpa using Ne.symm hBCne
  have hfindB : [A, B, C].find? (fun c => c.id == B.id) = some B := by
    have hne : (A.id == B.id) = false := by simpa using hABne
    simp [List.find?, hne]
  have hsPeq := hPbody.trans (chooseBody_valid_eq choose nodes edges P A B C
    (publishNodeResponse P.id "" true (runNodes gen choose nodes edges pre emptyRunState))
    r hchildren hch hAB2 hBB2 hCB2 hfindB)
  -- Facts about the state after P's body.
  have hF1 : (runBody gen choose nodes edges P
      (runNodes gen choose nodes edges pre emptyRunState)).selectedChildMap
      = [(P.id, B.id)] := by
    rw [hsPeq, resolveWith_selectedChildMap, mark_selectedChildMap_eq,
      mark_selectedChildMap_eq, markNodeSelected_selectedChildMap_eq,
      markEdgesComplete_selectedChildMap_eq]
    simp only [publish_selectedChildMap, h1.2.1]
  have hF2 : ∀ x, x ∈ (runBody gen choose nodes edges P
        (runNodes gen choose nodes edges pre emptyRunState)).skippedNodes ↔
      (x ∈ markedIds nodes edges (nodes.length + 1) A.id ∨
        x ∈ markedIds nodes edges (nodes.length + 1) C.id) := by
    intro x
    rw [hsPeq, resolveWith_skippedNodes, mark_skipped_mem, mark_skipped_mem,
      markNodeSelected_skipped_eq, markEdgesComplete_skipped_eq]
    simp only [publish_skippedNodes, h1.1]
    simp only [List.not_mem_nil, false_or]
  have hF3 : (runBody gen choose nodes edges P
      (runNodes gen choose nodes edges pre emptyRunState)).selectionStates.lookup B.id
      = some "selected" := by
    have hnotC : B.id ∉ markedIds nodes edges (nodes.length + 1) C.id :=
      fun h => hBC (markedIds_reaches nodes edges _ _ _ h)
    have hnotA : B.id ∉ markedIds nodes edges (nodes.length + 1) A.id :=
      fun h => hBA (markedIds_reaches nodes edges _ _ _ h)
    rw [hsPeq, resolveWith_selectionStates, mark_selection_lookup, if_neg hnotC,
      mark_selection_lookup, if_neg hnotA, markNodeSelected_selection_lookup]
    simp
  have hF4 : ∀ x, reaches nodes edges A.id x ∨ reaches nodes edges C.id x →
      x ∈ (runBody gen choose nodes edges P
        (runNodes gen choose nodes edges pre emptyRunState)).skippedNodes ∧
      (runBody gen choose nodes edges P
        (runNodes gen choose nodes edges pre emptyRunState)).selectionStates.lookup x
        = some "skipped" := by
    intro x hx
    constructor
    · rw [hF2 x]
      rcases hx with h | h
      · exact Or.inl (reaches_marked nodes edges _ _ h)
      · exact Or.inr (reaches_marked nodes edges _ _ h)
    · rw [hsPeq, resolveWith_selectionStates, mark_selection_lookup]
      rcases hx with h | h
      · by_cases hc : x ∈ markedIds nodes edges (nodes.length + 1) C.id
        · rw [if_pos hc]
        · rw [if_neg hc, mark_selection_lookup,
            if_pos (reaches_marked nodes edges _ _ h)]
      · rw [if_pos (reaches_marked nodes edges _ _ h)]
  have hF5 : (runBody gen choose nodes edges P
      (runNodes gen choose nodes edges pre emptyRunState)).responseMap.lookup P.id
      = some ("Selected: " ++ childLabel B ++ "\n\nReason: " ++ r) := by
    rw [hsPeq, resolveWith_responseMap, mark_responseMap_eq, mark_responseMap_eq,
      markNodeSelected_responseMap_eq, markEdgesComplete_responseMap_eq]
    simp [List.lookup]
  -- Safety of all nodes after P.
  have hpostSafe : ∀ m, m ∈ post₁ ∨ m ∈ post₂ →
      ((m.data.executionMode == some "choose") = false ∧
        (m.id ∈ (runBody gen choose nodes edges P
            (runNodes gen choose nodes edges pre emptyRunState)).skippedNodes ∨
          (∀ p ∈ getIncomers m nodes edges,
            (p.data.executionMode == some "choose") = false ∨ p.id ≠ P.id) ∨
          m.id = B.id)) := by
    intro m hm
    have hmO : m ∈ order := by
      rw [horderEq, hpostEq]
      rcases hm with hm | hm
      · exact List.mem_append.mpr (Or.inr (List.mem_cons_of_mem _
          (List.mem_append.mpr (Or.inl hm))))
      · exact List.mem_append.mpr (Or.inr (List.mem_cons_of_mem _
          (List.mem_append.mpr (Or.inr (List.mem_cons_of_mem _ hm)))))
    have hmN : m ∈ nodes := hperm.mem_iff.mp hmO
    have hmodem : (m.data.executionMode == some "choose") = false := by
      by_cases hq : m.data.executionMode = some "choose"
      · exact absurd (by rw [honly m hmN hq]) (hPostP m hm)
      · simpa [beq_eq_false_iff_ne] using hq
    refine ⟨hmodem, ?_⟩
    by_cases hex : ∀ p ∈ getIncomers m nodes edges,
        (p.data.executionMode == some "choose") = false
    · exact Or.inr (Or.inl (fun p hp => Or.inl (hex p hp)))
    · push_neg at hex
      obtain ⟨p, hp, hpb⟩ := hex
      have hpb' : p.data.executionMode = some "choose" := by
        have : (p.data.executionMode == some "choose") = true := by
          simpa using hpb
        exact beq_iff_eq.mp this
      obtain ⟨hpmem, e, he, hsrc, htgt⟩ := mem_getIncomers_elim nodes edges hp
      have hpP : p = P := honly p hpmem hpb'
      have hsrc' : e.source = P.id := by rw [hsrc, hpP]
      have hmout : m ∈ getOutgoers P nodes edges :=
        mem_getOutgoers_intro nodes edges hnodes hmN e he hsrc' htgt
      rw [hchildren] at hmout
      rcases List.mem_cons.mp hmout with rfl | hmout
      · exact Or.inl ((hF2 m.id).mpr (Or.inl (self_mem_markedIds nodes edges nodes.length m.id)))
      · rcases List.mem_cons.mp hmout with rfl | hmout
        · exact Or.inr (Or.inr rfl)
        · rcases List.mem_cons.mp hmout with rfl | hmout
          · exact Or.inl ((hF2 m.id).mpr (Or.inr (self_mem_markedIds nodes edges nodes.length m.id)))
          · cases hmout
  -- Phase 3: the nodes between P and B.
  have hL1a := runNodes_post_frame gen choose nodes edges P.id B.id post₁
    (runBody gen choose nodes edges P (runNodes gen choose nodes edges pre emptyRunState))
    hF1 (fun m hm => hpostSafe m (Or.inl hm))
  -- Phase 4: B's body.
  have hsc2 : (runNodes gen choose nodes edges post₁
      (runBody gen choose nodes edges P
        (runNodes gen choose nodes edges pre emptyRunState))).selectedChildMap
      = [(P.id, B.id)] := hL1a.2.2.1.trans hF1
  have hskB : (runNodes gen choose nodes edges post₁
      (runBody gen choose nodes edges P
        (runNodes gen choose nodes edges pre emptyRunState))).skippedNodes.contains B.id
      = false := by
    rw [hL1a.1]
    refine contains_eq_false_of_not_mem (fun hmem => ?_)
    rcases (hF2 B.id).mp hmem with h | h
    · exact hBA (markedIds_reaches nodes edges _ _ _ h)
    · exact hBC (markedIds_reaches nodes edges _ _ _ h)
  have htrigB := chooseTriggered_false_of _ (getIncomers B nodes edges) B.id P.id B.id
    hsc2 (Or.inr rfl)
  have hmodeB : (B.data.executionMode == some "choose") = false := by
    by_cases hq : B.data.executionMode = some "choose"
    · exact absurd (by rw [honly B hBmem hq]) hBP
    · simpa [beq_eq_false_iff_ne] using hq
  have hcondB : (B.data.executionMode == some "choose" && truthy B.data.conditionPrompt
      && decide ((getOutgoers B nodes edges).length > 1)) = false := by
    rw [hmodeB, Bool.false_and, Bool.false_and]
  have hBbody := runBody_eq_normal gen choose nodes edges B
    (runNodes gen choose nodes edges post₁
      (runBody gen choose nodes edges P (runNodes gen choose nodes edges pre emptyRunState)))
    hskB htrigB hcondB
  have hq3 := normalBody_quiet gen nodes edges B
    (publishNodeResponse B.id "" true (runNodes gen choose nodes edges post₁
      (runBody gen choose nodes edges P (runNodes gen choose nodes edges pre emptyRunState))))
  have hPB' : (P.id == B.id) = false := by
    simpa [beq_eq_false_iff_ne] using (Ne.symm hBP)
  have hfrB := normalBody_lookup_frame gen nodes edges B
    (publishNodeResponse B.id "" true (runNodes gen choose nodes edges post₁
      (runBody gen choose nodes edges P (runNodes gen choose nodes edges pre emptyRunState))))
    P.id hPB'
  -- Phase 5: the nodes after B.
  have hsc3 : (runBody gen choose nodes edges B (runNodes gen choose nodes edges post₁
      (runBody gen choose nodes edges P
        (runNodes gen choose nodes edges pre emptyRunState)))).selectedChildMap
      = [(P.id, B.id)] := by
    rw [hBbody, hq3.2.1]
    exact hsc2
  have hskip3 : (runBody gen choose nodes edges B (runNodes gen choose nodes edges post₁
      (runBody gen choose nodes edges P
        (runNodes gen choose nodes edges pre emptyRunState)))).skippedNodes
      = (runBody gen choose nodes edges P
        (runNodes gen choose nodes edges pre emptyRunState)).skippedNodes := by
    rw [hBbody, hq3.1]
    exact hL1a.1
  have hsel3 : (runBody gen choose nodes edges B (runNodes gen choose nodes edges post₁
      (runBody gen choose nodes edges P
        (runNodes gen choose nodes edges pre emptyRunState)))).selectionStates
      = (runBody gen choose nodes edges P
        (runNodes gen choose nodes edges pre emptyRunState)).selectionStates := by
    rw [hBbody, hq3.2.2.2]
    exact hL1a.2.1
  have hL1b := runNodes_post_frame gen choose nodes edges P.id B.id post₂
    (runBody gen choose nodes edges B (runNodes gen choose nodes edges post₁
      (runBody gen choose nodes edges P (runNodes gen choose nodes edges pre emptyRunState))))
    hsc3 (fun m hm => by
      have h := hpostSafe m (Or.inr hm)
      refine ⟨h.1, ?_⟩
      rcases h.2 with hx | hx
      · exact Or.inl (by rw [hskip3]; exact hx)
      · exact Or.inr hx)
  -- Decompose the whole run.
  have hfinal : runFlow gen choose nodes edges order =
      runNodes gen choose nodes edges post₂
        (runBody gen choose nodes edges B (runNodes gen choose nodes edges post₁
          (runBody gen choose nodes edges P
            (runNodes gen choose nodes edges pre emptyRunState)))) := by
    rw [runFlow, horderEq, hpostEq]
    simp only [runNodes, List.foldl_append, List.foldl_cons]
  refine ⟨?_, ?_, ?_, ?_, ?_⟩
  · rw [hfinal, hL1b.2.1, hsel3]
    exact hF3
  · rw [hfinal, (hL1b.2.2.2 B.id (fun m hm => hBneq₂ m hm)).1, hBbody,
      normalBody_resolved, hgenB]
    simp [List.lookup]
  · rw [hfinal, (hL1b.2.2.2 B.id (fun m hm => hBneq₂ m hm)).2.1, hBbody,
      normalBody_responseMap_some gen nodes edges B _ t hgenB]
    simp [List.lookup]
  · intro x hx
    constructor
    · rw [hfinal, hL1b.1, hskip3]
      exact (hF4 x hx).1
    · rw [hfinal, hL1b.2.1, hsel3]
      exact (hF4 x hx).2
  · rw [hfinal, (hL1b.2.2.2 P.id (fun m hm => hPneq₂ m hm)).2.1, hBbody, hfrB.2.1]
    have : (publishNodeResponse B.id "" true (runNodes gen choose nodes edges post₁
        (runBody gen choose nodes edges P
          (runNodes gen choose nodes edges pre emptyRunState)))).responseMap
        = (runNodes gen choose nodes edges post₁
          (runBody gen choose nodes edges P
            (runNodes gen choose nodes edges pre emptyRunState))).responseMap := rfl
    rw [this, (hL1a.2.2.2 P.id (fun m hm => hPneq₁ m hm)).2.1]
    exact hF5

/-- Witness for C4 at the three-child scenario: `tB` is selected, `tP`
stores the synthetic response, and `tD` (a descendant of non-selected
`tA`) is skipped. -/
theorem decision_node_selection_and_skip_run_witness :
    (runFlow okGen tChoose tNodes tEdges tNodes).selectionStates.lookup "tB"
      = some "selected" ∧
    (runFlow okGen tChoose tNodes tEdges tNodes).responseMap.lookup "tP"
      = some ("Selected: " ++ childLabel tB ++ "\n\nReason: " ++ "r") ∧
    "tD" ∈ (runFlow okGen tChoose tNodes tEdges tNodes).skippedNodes := by
  have h := decision_node_selection_and_skip_run okGen tChoose tNodes tEdges tNodes
    tP tA tB tC "r" "ttB" (by decide) ⟨List.Perm.refl _, by decide, by decide⟩
    (by decide) (by decide) rfl (by decide) (by decide) rfl
    (fun hr => absurd (reaches_marked tNodes tEdges _ _ hr) (by decide))
    (fun hr => absurd (reaches_marked tNodes tEdges _ _ hr) (by decide))
    (by decide)
  exact ⟨h.1, h.2.2.2.2,
    (h.2.2.2.1 "tD" (Or.inl (Relation.ReflTransGen.single
      (by simp only [edgeStep]; decide)))).1⟩

theorem exc_bind_ok {α β : Type} (a : α) (f : α → Except String β) :
    (Except.ok a >>= f) = f a := rfl

theorem exc_bind_error {α β : Type} (m : String) (f : α → Except String β) :
    ((Except.error m : Except String α) >>= f) = Except.error m := rfl

theorem chain_head_reaches {R : String → String → Prop} :
    ∀ (l : List String) (h x : String), List.Chain' R (h :: l) → x ∈ h :: l →
      Relation.ReflTransGen R h x := by
  intro l
  induction l with
  | nil =>
    intro h x _ hx
    rw [List.mem_singleton] at hx
    subst hx
    exact Relation.ReflTransGen.refl
  | cons b t ih =>
    intro h x hch hx
    rcases List.mem_cons.mp hx with rfl | hx'
    · exact Relation.ReflTransGen.refl
    · exact Relation.ReflTransGen.head (List.chain'_cons.mp hch).1
        (ih b x (List.chain'_cons.mp hch).2 hx')

theorem visit_ok_basic (nodes : List Node) (edges : List Edge) :
    ∀ (fuel : Nat) (node : Node) (s s' : SortState),
      visit nodes edges fuel node s = Except.ok s' →
      s'.visiting = s.visiting ∧ (∀ x ∈ s.visited, x ∈ s'.visited) ∧ node.id ∈ s'.visited := by
  intro fuel
  induction fuel with
  | zero => intro node s s' h; exact Except.noConfusion h
  | succ f ih =>
    have hfold : ∀ (l : List Node) (t t' : SortState),
        l.foldlM (fun u inc => visit nodes edges f inc u) t = Except.ok t' →
        t'.visiting = t.visiting ∧ (∀ x ∈ t.visited, x ∈ t'.visited) ∧
          ∀ inc ∈ l, inc.id ∈ t'.visited := by
      intro l
      induction l with
      | nil =>
        intro t t' h
        rw [List.foldlM_nil] at h
        injection h with h
        subst h
        exact ⟨rfl, fun x hx => hx, by simp⟩
      | cons a as iha =>
        intro t t' h
        simp only [List.foldlM_cons] at h
        cases hv : visit nodes edges f a t with
        | error m => rw [hv, exc_bind_error] at h; exact Except.noConfusion h
        | ok t₁ =>
          rw [hv, exc_bind_ok] at h
          have h₁ := ih a t t₁ hv
          have h₂ := iha t₁ t' h
          refine ⟨h₂.1.trans h₁.1, fun x hx => h₂.2.1 x (h₁.2.1 x hx), ?_⟩
          intro inc hinc
          rcases List.mem_cons.mp hinc with rfl | hinc'
          · exact h₂.2.1 inc.id h₁.2.2
          · exact h₂.2.2 inc hinc'
    intro node s s' h
    by_cases hv1 : s.visited.contains node.id = true
    · rw [visit, if_pos hv1] at h
      injection h with h
      subst h
      exact ⟨rfl, fun x hx => hx, (contains_iff_mem _ _).mp hv1⟩
    · by_cases hv2 : s.visiting.contains node.id = true
      · rw [visit, if_neg hv1, if_pos hv2] at h
        exact Except.noConfusion h
      · rw [visit, if_neg hv1, if_neg hv2] at h
        cases hf2 : (getIncomers node nodes edges).foldlM
            (fun t inc => visit nodes edges f inc t)
            ({ s with visiting := node.id :: s.visiting } : SortState) with
        | error m =>
          simp only [hf2, exc_bind_error] at h
          exact Except.noConfusion h
        | ok s₂ =>
          simp only [hf2, exc_bind_ok] at h
          injection h with h
          subst h
          have h₂ := hfold _ _ _ hf2
          refine ⟨?_, ?_, ?_⟩
          · show s₂.visiting.erase node.id = s.visiting
            rw [h₂.1]
            exact List.erase_cons_head node.id s.visiting
          · intro x hx
            exact List.mem_cons_of_mem _ (h₂.2.1 x hx)
          · exact List.mem_cons_self _ _

theorem foldVisit_ok_basic (nodes : List Node) (edges : List Edge) (fuel : Nat) :
    ∀ (l : List Node) (t t' : SortState),
      l.foldlM (fun u inc => visit nodes edges fuel inc u) t = Except.ok t' →
      t'.visiting = t.visiting ∧ (∀ x ∈ t.visited, x ∈ t'.visited) ∧
        ∀ inc ∈ l, inc.id ∈ t'.visited := by
  intro l
  induction l with
  | nil =>
    intro t t' h
    rw [List.foldlM_nil] at h
    injection h with h
    subst h
    exact ⟨rfl, fun x hx => hx, by simp⟩
  | cons a as iha =>
    intro t t' h
    simp only [List.foldlM_cons] at h
    cases hv : visit nodes edges fuel a t with
    | error m => rw [hv, exc_bind_error] at h; exact Except.noConfusion h
    | ok t₁ =>
      rw [hv, exc_bind_ok] at h
      have h₁ := visit_ok_basic nodes edges fuel a t t₁ hv
      have h₂ := iha t₁ t' h
      refine ⟨h₂.1.trans h₁.1, fun x hx => h₂.2.1 x (h₁.2.1 x hx), ?_⟩
      intro inc hinc
      rcases List.mem_cons.mp hinc with rfl | hinc'
      · exact h₂.2.1 inc.id h₁.2.2
      · exact h₂.2.2 inc hinc'

theorem foldVisit_ok_inv (nodes : List Node) (edges : List Edge) (fuel : Nat)
    (hA : ∀ (node : Node) (s s' : SortState), node ∈ nodes → SortInv nodes edges s →
      visit nodes edges fuel node s = Except.ok s' → SortInv nodes edges s') :
    ∀ (l : List Node) (t t' : SortState), (∀ i ∈ l, i ∈ nodes) →
      SortInv nodes edges t →
      l.foldlM (fun u inc => visit nodes edges fuel inc u) t = Except.ok t' →
      SortInv nodes edges t' := by
  intro l
  induction l with
  | nil =>
    intro t t' _ hinv h
    rw [List.foldlM_nil] at h
    injection h with h
    exact h ▸ hinv
  | cons a as iha =>
    intro t t' hl hinv h
    simp only [List.foldlM_cons] at h
    cases hv : visit nodes edges fuel a t with
    | error m => rw [hv, exc_bind_error] at h; exact Except.noConfusion h
    | ok t₁ =>
      rw [hv, exc_bind_ok] at h
      exact iha t₁ t' (fun i hi => hl i (List.mem_cons_of_mem _ hi))
        (hA a t t₁ (hl a (List.mem_cons_self _ _)) hinv hv) h

theorem visit_ok_inv (nodes : List Node) (edges : List Edge) :
    ∀ (fuel : Nat) (node : Node) (s s' : SortState), node ∈ nodes →
      SortInv nodes edges s → visit nodes edges fuel node s = Except.ok s' →
      SortInv nodes edges s' := by
  intro fuel
  induction fuel with
  | zero => intro node s s' _ _ h; exact Except.noConfusion h
  | succ f ih =>
    intro node s s' hnode hinv h
    by_cases hv1 : s.visited.contains node.id = true
    · rw [visit, if_pos hv1] at h
      injection h with h
      exact h ▸ hinv
    · by_cases hv2 : s.visiting.contains node.id = true
      · rw [visit, if_neg hv1, if_pos hv2] at h
        exact Except.noConfusion h
      · rw [visit, if_neg hv1, if_neg hv2] at h
        cases hf2 : (getIncomers node nodes edges).foldlM
            (fun t inc => visit nodes edges f inc t)
            ({ s with visiting := node.id :: s.visiting } : SortState) with
        | error m =>
          simp only [hf2, exc_bind_error] at h
          exact Except.noConfusion h
        | ok s₂ =>
          simp only [hf2, exc_bind_ok] at h
          injection h with h
          subst h
          obtain ⟨i1, i2, i3, i4, i5, i6, i7, i8⟩ := hinv
          have hnv : node.id ∉ s.visited := fun hm => hv1 ((contains_iff_mem _ _).mpr hm)
          have hng : node.id ∉ s.visiting := fun hm => hv2 ((contains_iff_mem _ _).mpr hm)
          have hinv1 : SortInv nodes edges { s with visiting := node.id :: s.visiting } := by
            refine ⟨i1, ?_, List.nodup_cons.mpr ⟨hng, i3⟩, i4, i5, i6, i7, i8⟩
            intro x hx
            rcases List.mem_cons.mp hx with rfl | hx'
            · exact hnv
            · exact i2 x hx'
          have hincs : ∀ i ∈ getIncomers node nodes edges, i ∈ nodes :=
            fun i hi => (mem_getIncomers_elim nodes edges hi).1
          have hinv2 := foldVisit_ok_inv nodes edges f ih _ _ _ hincs hinv1 hf2
          have hbf := foldVisit_ok_basic nodes edges f _ _ _ hf2
          obtain ⟨j1, j2, j3, j4, j5, j6, j7, j8⟩ := hinv2
          have hnv2 : node.id ∉ s₂.visited := fun hm =>
            j2 node.id (by rw [hbf.1]; exact List.mem_cons_self _ _) hm
          have herase : s₂.visiting.erase node.id = s.visiting := by
            rw [hbf.1]
            exact List.erase_cons_head _ _
          have hincv : ∀ inc ∈ getIncomers node nodes edges, inc.id ∈ s₂.visited := hbf.2.2
          refine ⟨List.nodup_cons.mpr ⟨hnv2, j1⟩, ?_, ?_, ?_, ?_, ?_, ?_, ?_⟩
          · intro x hx
            rw [herase] at hx
            intro hmem
            rcases List.mem_cons.mp hmem with heq | hmem'
            · exact hng (heq ▸ hx)
            · exact j2 x (by rw [hbf.1]; exact List.mem_cons_of_mem _ hx) hmem'
          · rw [herase]
            exact i3
          · show node.id :: s₂.visited = ((s₂.sorted ++ [node]).map (fun n => n.id)).reverse
            rw [List.map_append, List.reverse_append, j4]
            rfl
          · intro a ha
            rcases List.mem_append.mp ha with ha' | ha'
            · exact j5 a ha'
            · exact (List.mem_singleton.mp ha') ▸ hnode
          · intro a ha inc hinc
            rcases List.mem_append.mp ha with ha' | ha'
            · exact List.mem_cons_of_mem _ (j6 a ha' inc hinc)
            · rw [List.mem_singleton.mp ha'] at hinc
              exact List.mem_cons_of_mem _ (hincv inc hinc)
          · refine List.pairwise_append.mpr ⟨j7, by simp, ?_⟩
            intro a ha b hb hbin
            rw [List.mem_singleton.mp hb] at hbin
            exact hnv2 (j6 a ha node hbin)
          · intro a ha
            rcases List.mem_append.mp ha with ha' | ha'
            · exact j8 a ha'
            · rw [List.mem_singleton.mp ha']
              intro hself
              exact hnv2 (hincv node hself)

theorem foldVisit_error_msg (nodes : List Node) (edges : List Edge) (fuel : Nat)
    (V : List String)
    (hA : ∀ (node : Node) (s : SortState) (m : String), node ∈ nodes → s.visiting = V →
      visit nodes edges fuel node s = Except.error m → m = "Cycle detected in graph") :
    ∀ (l : List Node) (t : SortState) (m : String), (∀ i ∈ l, i ∈ nodes) →
      t.visiting = V →
      l.foldlM (fun u inc => visit nodes edges fuel inc u) t = Except.error m →
      m = "Cycle detected in graph" := by
  intro l
  induction l with
  | nil =>
    intro t m _ _ h
    rw [List.foldlM_nil] at h
    exact Except.noConfusion h
  | cons a as iha =>
    intro t m hl hvis h
    simp only [List.foldlM_cons] at h
    cases hv : visit nodes edges fuel a t with
    | error m' =>
      rw [hv, exc_bind_error] at h
      injection h with h
      exact h ▸ hA a t m' (hl a (List.mem_cons_self _ _)) hvis hv
    | ok t₁ =>
      rw [hv, exc_bind_ok] at h
      have h₁ := visit_ok_basic nodes edges fuel a t t₁ hv
      exact iha t₁ m (fun i hi => hl i (List.mem_cons_of_mem _ hi)) (h₁.1.trans hvis) h

theorem visit_error_msg (nodes : List Node) (edges : List Edge) :
    ∀ (fuel : Nat) (node : Node) (s : SortState) (m : String), node ∈ nodes →
      s.visiting.Nodup → (∀ x ∈ s.visiting, x ∈ nodeIds nodes) →
      nodes.length + 1 ≤ fuel + s.visiting.length →
      visit nodes edges fuel node s = Except.error m →
      m = "Cycle detected in graph" := by
  intro fuel
  induction fuel with
  | zero =>
    intro node s m _ hnd hsub hbound _
    have hsp := (List.Nodup.subperm hnd (fun x hx => hsub x hx)).length_le
    rw [nodeIds, List.length_map] at hsp
    omega
  | succ f ih =>
    intro node s m hnode hnd hsub hbound h
    by_cases hv1 : s.visited.contains node.id = true
    · rw [visit, if_pos hv1] at h
      exact Except.noConfusion h
    · by_cases hv2 : s.visiting.contains node.id = true
      · rw [visit, if_neg hv1, if_pos hv2] at h
        injection h with h
        exact h.symm
      · rw [visit, if_neg hv1, if_neg hv2] at h
        cases hf2 : (getIncomers node nodes edges).foldlM
            (fun t inc => visit nodes edges f inc t)
            ({ s with visiting := node.id :: s.visiting } : SortState) with
        | ok s₂ =>
          simp only [hf2, exc_bind_ok] at h
          exact Except.noConfusion h
        | error m' =>
          simp only [hf2, exc_bind_error] at h
          injection h with h
          have hng : node.id ∉ s.visiting := fun hm => hv2 ((contains_iff_mem _ _).mpr hm)
          have hA : ∀ (nd : Node) (t : SortState) (mm : String), nd ∈ nodes →
              t.visiting = node.id :: s.visiting →
              visit nodes edges f nd t = Except.error mm →
              mm = "Cycle detected in graph" := by
            intro nd t mm hnd' hvis herr
            refine ih nd t mm hnd' ?_ ?_ ?_ herr
            · rw [hvis]
              exact List.nodup_cons.mpr ⟨hng, hnd⟩
            · rw [hvis]
              intro x hx
              rcases List.mem_cons.mp hx with rfl | hx'
              · exact List.mem_map.mpr ⟨node, hnode, rfl⟩
              · exact hsub x hx'
            · rw [hvis]
              simp only [List.length_cons]
              omega
          have hall := foldVisit_error_msg nodes edges f (node.id :: s.visiting) hA
            (getIncomers node nodes edges) _ m'
            (fun i hi => (mem_getIncomers_elim nodes edges hi).1) rfl hf2
          exact h ▸ hall

theorem visit_error_cycle (nodes : List Node) (edges : List Edge) :
    ∀ (fuel : Nat) (node : Node) (s : SortState), node ∈ nodes →
      List.Chain' (edgeStep nodes edges) s.visiting →
      (s.visiting = [] ∨ ∃ h0 t0, s.visiting = h0 :: t0 ∧ edgeStep nodes edges node.id h0) →
      visit nodes edges fuel node s = Except.error "Cycle detected in graph" →
      hasCycle nodes edges := by
  intro fuel
  induction fuel with
  | zero =>
    intro node s _ _ _ h
    injection h with h
    exact absurd h (by decide)
  | succ f ih =>
    intro node s hnode hchain hhead h
    by_cases hv1 : s.visited.contains node.id = true
    · rw [visit, if_pos hv1] at h
      exact Except.noConfusion h
    · by_cases hv2 : s.visiting.contains node.id = true
      · have hmem : node.id ∈ s.visiting := (contains_iff_mem _ _).mp hv2
        rcases hhead with hnil | ⟨h0, t0, hvis, hstep⟩
        · rw [hnil] at hmem
          cases hmem
        · rw [hvis] at hmem hchain
          exact ⟨node.id, Relation.TransGen.head' hstep
            (chain_head_reaches t0 h0 node.id hchain hmem)⟩
      · rw [visit, if_neg hv1, if_neg hv2] at h
        cases hf2 : (getIncomers node nodes edges).foldlM
            (fun t inc => visit nodes edges f inc t)
            ({ s with visiting := node.id :: s.visiting } : SortState) with
        | ok s₂ =>
          simp only [hf2, exc_bind_ok] at h
          exact Except.noConfusion h
        | error m =>
          simp only [hf2, exc_bind_error] at h
          injection h with h
          subst h
          have hchain1 : List.Chain' (edgeStep nodes edges) (node.id :: s.visiting) := by
            rcases hhead with hnil | ⟨h0, t0, hvis, hstep⟩
            · rw [hnil]
              exact List.chain'_singleton _
            · rw [hvis]
              exact List.chain'_cons.mpr ⟨hstep, hvis ▸ hchain⟩
          have hfold : ∀ (l : List Node) (t : SortState),
              (∀ i ∈ l, i ∈ nodes ∧ edgeStep nodes edges i.id node.id) →
              t.visiting = node.id :: s.visiting →
              l.foldlM (fun u inc => visit nodes edges f inc u) t
                = Except.error "Cycle detected in graph" →
              hasCycle nodes edges := by
            intro l
            induction l with
            | nil =>
              intro t _ _ hh
              rw [List.foldlM_nil] at hh
              exact Except.noConfusion hh
            | cons a as iha =>
              intro t hl hvis hh
              simp only [List.foldlM_cons] at hh
              cases hva : visit nodes edges f a t with
              | error m' =>
                rw [hva, exc_bind_error] at hh
                injection hh with hh
                subst hh
                exact ih a t (hl a (List.mem_cons_self _ _)).1
                  (by rw [hvis]; exact hchain1)
                  (Or.inr ⟨node.id, s.visiting, hvis, (hl a (List.mem_cons_self _ _)).2⟩)
                  hva
              | ok t₁ =>
                rw [hva, exc_bind_ok] at hh
                exact iha t₁ (fun i hi => hl i (List.mem_cons_of_mem _ hi))
                  ((visit_ok_basic nodes edges f a t t₁ hva).1.trans hvis) hh
          refine hfold (getIncomers node nodes edges) _ ?_ rfl hf2
          intro i hi
          obtain ⟨hin, e, he, hsrc, htgt⟩ := mem_getIncomers_elim nodes edges hi
          exact ⟨hin, ⟨e, he, hsrc, htgt⟩, ⟨i, hin, rfl⟩, ⟨node, hnode, rfl⟩⟩

theorem isTopoOrder_step_lt (nodes : List Node) (edges : List Edge) (order : List Node)
    (hnd : (nodeIds nodes).Nodup) (hord : isTopoOrder nodes edges order) :
    ∀ x y, edgeStep nodes edges x y →
      (order.map (fun n => n.id)).indexOf x < (order.map (fun n => n.id)).indexOf y := by
  obtain ⟨hperm, hpw, hself⟩ := hord
  intro x y hstep
  obtain ⟨⟨e, he, hsrc, htgt⟩, ⟨nx, hnx, hidx⟩, ⟨ny, hny, hidy⟩⟩ := hstep
  have hnx' : nx ∈ order := hperm.mem_iff.mpr hnx
  have hny' : ny ∈ order := hperm.mem_iff.mpr hny
  have hinc : nx ∈ getIncomers ny nodes edges :=
    mem_getIncomers_intro nodes edges hnd hnx e he (by rw [hsrc, hidx]) (by rw [htgt, hidy])
  have hxm : x ∈ order.map (fun n => n.id) := List.mem_map.mpr ⟨nx, hnx', hidx⟩
  have hym : y ∈ order.map (fun n => n.id) := List.mem_map.mpr ⟨ny, hny', hidy⟩
  have hxlt := List.indexOf_lt_length.mpr hxm
  have hylt := List.indexOf_lt_length.mpr hym
  have hxlt' : (order.map (fun n => n.id)).indexOf x < order.length := by
    rw [List.length_map] at hxlt
    exact hxlt
  have hylt' : (order.map (fun n => n.id)).indexOf y < order.length := by
    rw [List.length_map] at hylt
    exact hylt
  have key : ∀ (z : String) (nz : Node), nz ∈ order → nz.id = z →
      ∀ (hz : (order.map (fun n => n.id)).indexOf z < order.length),
      order.get ⟨(order.map (fun n => n.id)).indexOf z, hz⟩ = nz := by
    intro z nz hnz hidz hz
    have hzm : z ∈ order.map (fun n => n.id) := List.mem_map.mpr ⟨nz, hnz, hidz⟩
    have hzl := List.indexOf_lt_length.mpr hzm
    have h1 := List.getElem_indexOf hzl
    simp only [List.getElem_map] at h1
    have hmem : order.get ⟨(order.map (fun n => n.id)).indexOf z, hz⟩ ∈ order :=
      List.get_mem order _ hz
    exact List.inj_on_of_nodup_map hnd (hperm.mem_iff.mp hmem) (hperm.mem_iff.mp hnz)
      (h1.trans hidz.symm)
  rcases Nat.lt_trichotomy ((order.map (fun n => n.id)).indexOf x)
      ((order.map (fun n => n.id)).indexOf y) with hlt | heq | hgt
  · exact hlt
  · exfalso
    have hx1 := key x nx hnx' hidx hxlt'
    have hy1 := key y ny hny' hidy hylt'
    have hg : order.get ⟨_, hxlt'⟩ = order.get ⟨_, hylt'⟩ := congrArg order.get (Fin.ext heq)
    have hxy : nx = ny := by
      rw [← hx1, ← hy1]
      exact hg
    exact hself ny hny' (hxy ▸ hinc)
  · exfalso
    have hx1 := key x nx hnx' hidx hxlt'
    have hy1 := key y ny hny' hidy hylt'
    have hpw' := List.pairwise_iff_get.mp hpw
      ⟨(order.map (fun n => n.id)).indexOf y, hylt'⟩
      ⟨(order.map (fun n => n.id)).indexOf x, hxlt'⟩ hgt
    rw [hx1, hy1] at hpw'
    exact hpw' hinc

theorem isTopoOrder_acyclic (nodes : List Node) (edges : List Edge) (order : List Node)
    (hnd : (nodeIds nodes).Nodup) (hord : isTopoOrder nodes edges order) :
    ¬ hasCycle nodes edges := by
  rintro ⟨a, htg⟩
  have hmono : ∀ x y, Relation.TransGen (edgeStep nodes edges) x y →
      (order.map (fun n => n.id)).indexOf x < (order.map (fun n => n.id)).indexOf y := by
    intro x y h
    induction h with
    | single h1 => exact isTopoOrder_step_lt nodes edges order hnd hord _ _ h1
    | tail h1 h2 ih =>
      exact Nat.lt_trans ih (isTopoOrder_step_lt nodes edges order hnd hord _ _ h2)
  exact Nat.lt_irrefl _ (hmono a a htg)

theorem foldVisit_error_cycle (nodes : List Node) (edges : List Edge) (fuel : Nat) :
    ∀ (l : List Node) (t : SortState), (∀ i ∈ l, i ∈ nodes) → t.visiting = [] →
      l.foldlM (fun u inc => visit nodes edges fuel inc u) t
        = Except.error "Cycle detected in graph" →
      hasCycle nodes edges := by
  intro l
  induction l with
  | nil =>
    intro t _ _ h
    rw [List.foldlM_nil] at h
    exact Except.noConfusion h
  | cons a as iha =>
    intro t hl hvis h
    simp only [List.foldlM_cons] at h
    cases hv : visit nodes edges fuel a t with
    | error m' =>
      rw [hv, exc_bind_error] at h
      injection h with h
      subst h
      exact visit_error_cycle nodes edges fuel a t (hl a (List.mem_cons_self _ _))
        (by rw [hvis]; exact List.chain'_nil) (Or.inl hvis) hv
    | ok t₁ =>
      rw [hv, exc_bind_ok] at h
      exact iha t₁ (fun i hi => hl i (List.mem_cons_of_mem _ hi))
        ((visit_ok_basic nodes edges fuel a t t₁ hv).1.trans hvis) h

theorem topologicalSort_error (nodes : List Node) (edges : List Edge) (m : String)
    (h : topologicalSort nodes edges = Except.error m) :
    m = "Cycle detected in graph" ∧ hasCycle nodes edges := by
  rw [topologicalSort] at h
  cases hf : nodes.foldlM (fun s n => visit nodes edges (nodes.length + 1) n s)
      (⟨[], [], []⟩ : SortState) with
  | ok sfin =>
    rw [hf] at h
    exact Except.noConfusion h
  | error m' =>
    rw [hf] at h
    injection h with h
    subst h
    have hmsg : m' = "Cycle detected in graph" :=
      foldVisit_error_msg nodes edges (nodes.length + 1) []
        (fun nd st mm hnd' hvis herr =>
          visit_error_msg nodes edges (nodes.length + 1) nd st mm hnd'
            (by rw [hvis]; exact List.nodup_nil)
            (by rw [hvis]; intro x hx; cases hx)
            (by rw [hvis]; simp) herr)
        nodes _ m' (fun i hi => hi) rfl hf
    refine ⟨hmsg, ?_⟩
    rw [hmsg] at hf
    exact foldVisit_error_cycle nodes edges (nodes.length + 1) nodes _
      (fun i hi => hi) rfl hf

theorem topologicalSort_ok_topo (nodes : List Node) (edges : List Edge)
    (hnd : (nodeIds nodes).Nodup) (sorted : List Node)
    (h : topologicalSort nodes edges = Except.ok sorted) :
    isTopoOrder nodes edges sorted := by
  rw [topologicalSort] at h
  cases hf : nodes.foldlM (fun s n => visit nodes edges (nodes.length + 1) n s)
      (⟨[], [], []⟩ : SortState) with
  | error m' =>
    rw [hf] at h
    exact Except.noConfusion h
  | ok sfin =>
    rw [hf] at h
    injection h with h
    have hinv0 : SortInv nodes edges (⟨[], [], []⟩ : SortState) := by
      refine ⟨List.nodup_nil, ?_, List.nodup_nil, rfl, ?_, ?_, List.Pairwise.nil, ?_⟩
      · intro x hx; cases hx
      · intro a ha; cases ha
      · intro a ha; cases ha
      · intro a ha; cases ha
    have hinv := foldVisit_ok_inv nodes edges (nodes.length + 1)
      (fun nd st st' hn hi hv => visit_ok_inv nodes edges (nodes.length + 1) nd st st' hn hi hv)
      nodes _ _ (fun i hi => hi) hinv0 hf
    have hbf := foldVisit_ok_basic nodes edges (nodes.length + 1) nodes _ _ hf
    obtain ⟨j1, j2, j3, j4, j5, j6, j7, j8⟩ := hinv
    have hvisall : ∀ n ∈ nodes, n.id ∈ sfin.visited := hbf.2.2
    have hmapnd : (sfin.sorted.map (fun n => n.id)).Nodup := by
      have hj := j1
      rw [j4] at hj
      exact List.nodup_reverse.mp hj
    have hid_mem : ∀ n ∈ nodes, n.id ∈ sfin.sorted.map (fun n => n.id) := by
      intro n hn
      have hv := hvisall n hn
      rw [j4] at hv
      exact List.mem_reverse.mp hv
    have hsortednd : sfin.sorted.Nodup := List.Nodup.of_map _ hmapnd
    have hnodesnd : nodes.Nodup := List.Nodup.of_map _ hnd
    have hperm : sfin.sorted.Perm nodes := by
      rw [List.perm_ext_iff_of_nodup hsortednd hnodesnd]
      intro a
      constructor
      · exact fun ha => j5 a ha
      · intro ha
        obtain ⟨b, hb, hid⟩ := List.mem_map.mp (hid_mem a ha)
        have hba : b = a := List.inj_on_of_nodup_map hnd (j5 b hb) ha hid
        exact hba ▸ hb
    rw [← h]
    exact ⟨hperm, j7, j8⟩

theorem exists_topo_order (nodes : List Node) (edges : List Edge)
    (hnd : (nodeIds nodes).Nodup) (hacyc : ¬ hasCycle nodes edges) :
    ∃ order, isTopoOrder nodes edges order := by
  cases hres : topologicalSort nodes edges with
  | ok sorted => exact ⟨sorted, topologicalSort_ok_topo nodes edges hnd sorted hres⟩
  | error m => exact absurd (topologicalSort_error nodes edges m hres).2 hacyc

/-- C10: `topologicalSort` throws the error `"Cycle detected in graph"` iff
the edge set contains a directed cycle among the given nodes, and on every
acyclic input (node ids unique) it returns a permutation of the nodes in
which every node appears after all of its incomers. -/
theorem topologicalSort_cycle_iff_and_sorts (nodes : List Node) (edges : List Edge)
    (hnd : (nodeIds nodes).Nodup) :
    (topologicalSort nodes edges = Except.error "Cycle detected in graph" ↔
      hasCycle nodes edges) ∧
    (¬ hasCycle nodes edges →
      ∃ sorted, topologicalSort nodes edges = Except.ok sorted ∧
        isTopoOrder nodes edges sorted) := by
  constructor
  · constructor
    · intro h
      exact (topologicalSort_error nodes edges _ h).2
    · intro hc
      cases hres : topologicalSort nodes edges with
      | ok sorted =>
        exact absurd hc
          (isTopoOrder_acyclic nodes edges sorted hnd
            (topologicalSort_ok_topo nodes edges hnd sorted hres))
      | error m =>
        rw [(topologicalSort_error nodes edges m hres).1]
  · intro hnc
    cases hres : topologicalSort nodes edges with
    | ok sorted => exact ⟨sorted, rfl, topologicalSort_ok_topo nodes edges hnd sorted hres⟩
    | error m => exact absurd (topologicalSort_error nodes edges m hres).2 hnc

/-- Witness for C10 at the (acyclic) three-child scenario graph: the sort
does not throw, and succeeds with a topological order. -/
theorem topologicalSort_cycle_iff_and_sorts_witness :
    ¬ hasCycle tNodes tEdges ∧
    ∃ sorted, topologicalSort tNodes tEdges = Except.ok sorted ∧
      isTopoOrder tNodes tEdges sorted := by
  have h := topologicalSort_cycle_iff_and_sorts tNodes tEdges (by decide)
  have hval : topologicalSort tNodes tEdges = Except.ok [tP, tA, tB, tC, tD] := by rfl
  have hnc : ¬ hasCycle tNodes tEdges := fun hc => by
    have herr := h.1.mpr hc
    rw [hval] at herr
    exact Except.noConfusion herr
  exact ⟨hnc, h.2 hnc⟩

theorem chooseBody_resolves (choose : String → Option (String × String))
    (nodes : List Node) (edges : List Edge) (node : Node) (s0 : RunState) :
    ∃ v, (chooseBody choose nodes edges node s0).resolved = (node.id, v) :: s0.resolved := by
  cases hc : choose node.id with
  | none =>
    refine ⟨none, ?_⟩
    simp only [chooseBody, hc]
    rfl
  | some pr =>
    obtain ⟨cid, r⟩ := pr
    refine ⟨some ("Selected: " ++ (match (getOutgoers node nodes edges).find?
        (fun c => c.id == cid) with
      | some c => childLabel c
      | none => "Unknown") ++ "\n\nReason: " ++ r), ?_⟩
    simp only [chooseBody, hc]
    rw [resolveWith_resolved]
    refine congrArg₂ List.cons rfl ?_
    have hpres : ∀ (t : RunState) (c : Node),
        ((if c.id != cid then markSubtreeSkipped nodes edges (nodes.length + 1) c.id t
          else t) : RunState).resolved = t.resolved := by
      intro t c
      by_cases h : (c.id != cid) = true
      · rw [if_pos h]
        exact (mark_components nodes edges (nodes.length + 1) c.id t).1
      · rw [if_neg h]
    rw [foldl_proj (fun (u : RunState) => u.resolved)
      (fun (t : RunState) (c : Node) =>
        if c.id != cid then markSubtreeSkipped nodes edges (nodes.length + 1) c.id t else t)
      _ _ hpres]
    rw [(markNodeSelected_components edges cid _).1,
      (markEdgesComplete_components edges node.id _).1, publish_resolved]

theorem runBody_resolves (gen : String → Option String)
    (choose : String → Option (String × String)) (nodes : List Node) (edges : List Edge)
    (node : Node) (s : RunState) :
    ∃ v, (runBody gen choose nodes edges node s).resolved = (node.id, v) :: s.resolved := by
  by_cases h1 : s.skippedNodes.contains node.id = true
  · rw [runBody_eq_skipped gen choose nodes edges node s h1]
    exact ⟨none, rfl⟩
  · have h1' : s.skippedNodes.contains node.id = false := by simpa using h1
    by_cases h2 : chooseTriggered s (getIncomers node nodes edges) node.id = true
    · rw [runBody_eq_triggered gen choose nodes edges node s h1' h2]
      refine ⟨none, ?_⟩
      rw [resolveWith_resolved, (mark_components nodes edges (nodes.length + 1) node.id s).1]
    · have h2' : chooseTriggered s (getIncomers node nodes edges) node.id = false := by
        simpa using h2
      by_cases h3 : (node.data.executionMode == some "choose" && truthy node.data.conditionPrompt
          && decide ((getOutgoers node nodes edges).length > 1)) = true
      · rw [runBody_eq_choose gen choose nodes edges node s h1' h2' h3]
        obtain ⟨v, hv⟩ := chooseBody_resolves choose nodes edges node
          (publishNodeResponse node.id "" true s)
        refine ⟨v, ?_⟩
        rw [hv, publish_resolved]
      · have h3' : (node.data.executionMode == some "choose"
            && truthy node.data.conditionPrompt
            && decide ((getOutgoers node nodes edges).length > 1)) = false := by
          simpa using h3
        rw [runBody_eq_normal gen choose nodes edges node s h1' h2' h3']
        refine ⟨gen node.id, ?_⟩
        rw [normalBody_resolved, publish_resolved]

theorem countEntries_cons {β : Type} (k a1 : String) (v : β) (l : List (String × β)) :
    countEntries k ((a1, v) :: l) = countEntries k l + (if a1 == k then 1 else 0) := by
  by_cases h : (a1 == k) = true
  · simp [countEntries, List.filter_cons, h, Nat.add_comm]
  · simp only [Bool.not_eq_true] at h
    simp [countEntries, List.filter_cons, h]

theorem countEntries_runNodes (gen : String → Option String)
    (choose : String → Option (String × String)) (nodes : List Node) (edges : List Edge) :
    ∀ (order : List Node) (s : RunState) (k : String),
      countEntries k (runNodes gen choose nodes edges order s).resolved
        = order.countP (fun n => n.id == k) + countEntries k s.resolved := by
  intro order
  induction order with
  | nil => intro s k; simp [runNodes, countEntries]
  | cons n rest ih =>
    intro s k
    rw [runNodes, List.foldl_cons]
    obtain ⟨v, hv⟩ := runBody_resolves gen choose nodes edges n s
    have hr := ih (runBody gen choose nodes edges n s) k
    rw [runNodes] at hr
    rw [hr, hv, countEntries_cons, List.countP_cons]
    by_cases h : (n.id == k) = true
    · omega
    · omega

theorem countP_eq_one_of_nodup_mem :
    ∀ (l : List String) (a : String), l.Nodup → a ∈ l →
      l.countP (fun x => x == a) = 1 := by
  intro l
  induction l with
  | nil => intro a _ ha; cases ha
  | cons b t ih =>
    intro a hnd ha
    rw [List.nodup_cons] at hnd
    rw [List.countP_cons]
    rcases List.mem_cons.mp ha with rfl | ha'
    · have h0 : t.countP (fun x => x == a) = 0 :=
        List.countP_eq_zero.mpr (fun x hx hbe => hnd.1 ((beq_iff_eq.mp hbe) ▸ hx))
      rw [h0]
      simp
    · have hb : (b == a) = false := by
        simp only [beq_eq_false_iff_ne, ne_eq]
        intro he
        exact hnd.1 (he ▸ ha')
      rw [ih a hnd.2 ha', hb]
      simp

theorem countP_id_of_nodup (nodes : List Node) (hnd : (nodeIds nodes).Nodup)
    (n : Node) (hn : n ∈ nodes) :
    nodes.countP (fun m => m.id == n.id) = 1 := by
  have h1 : (nodeIds nodes).countP (fun x => x == n.id) = 1 :=
    countP_eq_one_of_nodup_mem _ _ hnd (List.mem_map.mpr ⟨n, hn, rfl⟩)
  rw [nodeIds, List.countP_map] at h1
  simpa [Function.comp] using h1

/-- C3: on every acyclic graph (node ids unique) the run settles: the
scheduler admits a topological execution order, and over any such order —
for arbitrary outcomes of the external generation and branch-selection
calls, including failing ones — every node's unit of work resolves exactly
once, so `runFlow` itself never rejects on ordinary per-node failures. -/
theorem runFlow_settles_and_resolves_once (gen : String → Option String)
    (choose : String → Option (String × String)) (nodes : List Node) (edges : List Edge)
    (hnd : (nodeIds nodes).Nodup) (hacyc : ¬ hasCycle nodes edges) :
    (∃ order, isTopoOrder nodes edges order) ∧
    ∀ order, isTopoOrder nodes edges order → ∀ n ∈ nodes,
      countEntries n.id (runFlow gen choose nodes edges order).resolved = 1 := by
  refine ⟨exists_topo_order nodes edges hnd hacyc, ?_⟩
  intro order hord n hn
  rw [runFlow, countEntries_runNodes]
  have h1 : order.countP (fun m => m.id == n.id) = nodes.countP (fun m => m.id == n.id) :=
    hord.1.countP_eq _
  rw [h1, countP_id_of_nodup nodes hnd n hn]
  rfl

/-- Witness for C3 at the three-child scenario: an order exists, and over
the order `[tP, tA, tB, tC, tD]` every node resolves exactly once, with a
branch-selection oracle in play. -/
theorem runFlow_settles_and_resolves_once_witness :
    (∃ order, isTopoOrder tNodes tEdges order) ∧
    countEntries "tD" (runFlow okGen tChoose tNodes tEdges [tP, tA, tB, tC, tD]).resolved
      = 1 := by
  have h := runFlow_settles_and_resolves_once okGen tChoose tNodes tEdges (by decide)
    (isTopoOrder_acyclic tNodes tEdges tNodes (by decide)
      ⟨List.Perm.refl _, by decide, by decide⟩)
  exact ⟨h.1, h.2 [tP, tA, tB, tC, tD] ⟨List.Perm.refl _, by decide, by decide⟩ tD (by decide)⟩

end Loopy
